import Mathlib

/-!
Verification of the layout resolution engine (collision testing, nearest
valid slot search, cascading bump displacement, backfill gap compaction and
the orchestration entry point) of the team-roadmaps repository.

The definitions below are a shallow embedding of src/utils/physics.ts
(the multi-drag version).  Coordinates are integers: the source stores
integer pixel offsets and all arithmetic performed on them stays integral.
The JavaScript center comparison divides by 2; here both sides are scaled
by 2 instead, which preserves the comparison exactly.
-/

structure PhysicsItem where
  id : Nat
  x : Int
  y : Int
  widthUnits : Int
  deriving Repr, DecidableEq

/-- Embedding of checkCollision: axis aligned box overlap against a list,
skipping items that share the candidate id.  Width is widthUnits * cellSize,
height is cellSize, and all comparisons are strict. -/
def checkCollision (candidate : PhysicsItem) (existingItems : List PhysicsItem)
    (cellSize : Int) : Bool :=
  existingItems.any (fun other =>
    if other.id == candidate.id then false
    else
      let overlapX := (candidate.x < other.x + other.widthUnits * cellSize)
        && (candidate.x + candidate.widthUnits * cellSize > other.x)
      let overlapY := (candidate.y < other.y + cellSize)
        && (candidate.y + cellSize > other.y)
      overlapX && overlapY)

/-- n consecutive integers starting at lo, ascending. -/
def intRangeAux (lo : Int) : Nat → List Int
  | 0 => []
  | n + 1 => lo :: intRangeAux (lo + 1) n

/-- All integers from lo to hi inclusive, ascending. -/
def intRange (lo hi : Int) : List Int :=
  intRangeAux lo (hi + 1 - lo).toNat

/-- One ring of the concentric search: dx from -r to r, and for each dx,
dy from -r to r, keeping only the pairs on the outer ring
(|dx| = r or |dy| = r), in exactly the traversal order of the source. -/
def ringPairs (r : Nat) : List (Int × Int) :=
  (intRange (-(r : Int)) r).flatMap (fun dx =>
    (intRange (-(r : Int)) r).filterMap (fun dy =>
      if dx.natAbs == r || dy.natAbs == r then some (dx, dy) else none))

/-- The rings for radius 1 through 10, concatenated in search order. -/
def searchOffsets : List (Int × Int) :=
  (List.range 10).flatMap (fun i => ringPairs (i + 1))

/-- Boundary test used by the search: true when the whole box fits inside
the grid (the source skips candidates with x < 0, y < 0, a right edge past
gridWidth, or a bottom edge past gridHeight). -/
def inGridBounds (x y widthUnits cellSize gridWidth gridHeight : Int) : Bool :=
  !(x < 0) && !(y < 0) && !(x + widthUnits * cellSize > gridWidth)
    && !(y + cellSize > gridHeight)

/-- A search candidate is kept when it is inside the grid and collision
free; this is the test the ring scan applies to every candidate. -/
def validSlotAt (itemId : Nat) (items : List PhysicsItem)
    (widthUnits cellSize gridWidth gridHeight x y : Int) : Bool :=
  inGridBounds x y widthUnits cellSize gridWidth gridHeight
    && !(checkCollision
      { id := itemId, x := x, y := y, widthUnits := widthUnits }
      items cellSize)

/-- Embedding of findClosestValidPosition: return the target when it is
collision free (without any bounds check, as in the source), otherwise scan
the rings for the first in-bounds collision-free candidate, otherwise fall
back to the pre-move position of the item, or to the origin. -/
def findClosestValidPosition (itemId : Nat) (allItems : List PhysicsItem)
    (targetX targetY widthUnits cellSize gridWidth gridHeight : Int) :
    Int × Int :=
  let targetCandidate : PhysicsItem :=
    { id := itemId, x := targetX, y := targetY, widthUnits := widthUnits }
  if !(checkCollision targetCandidate allItems cellSize) then
    (targetX, targetY)
  else
    match searchOffsets.find? (fun d =>
        validSlotAt itemId allItems widthUnits cellSize gridWidth gridHeight
          (targetX + d.1 * cellSize) (targetY + d.2 * cellSize)) with
    | some d => (targetX + d.1 * cellSize, targetY + d.2 * cellSize)
    | none =>
      match allItems.find? (fun i => i.id == itemId) with
      | some original => (original.x, original.y)
      | none => (0, 0)

/-- A displacement performed during bump propagation.  The fields record
the data the assignment read at that moment: the bumper box, the displaced
connection box, the old and the newly assigned x, and the push direction
(the source pushes right when the bumper center is at most the connection
center).  The event list is a proof-carrying observation of the loop; it
does not influence the computed items. -/
structure BumpEvent where
  connId : Nat
  bumperId : Nat
  bumperX : Int
  bumperY : Int
  bumperW : Int
  connY : Int
  connW : Int
  oldX : Int
  newX : Int
  pushedRight : Bool
  deriving Repr, DecidableEq

/-- Map.set on an insertion-ordered association list keyed by item id:
replace the value in place when the key exists, append otherwise. -/
def mapSet (m : List PhysicsItem) (it : PhysicsItem) : List PhysicsItem :=
  if m.any (fun e => e.id == it.id) then
    m.map (fun e => if e.id == it.id then it else e)
  else
    m ++ [it]

/-- The working set of resolveBumps: all items except the candidates are
loaded first (in list order), then the candidates (source of truth). -/
def buildMap (candidates allItems : List PhysicsItem) : List PhysicsItem :=
  let candIds := candidates.map (fun c => c.id)
  let base := (allItems.filter
    (fun it => !(candIds.contains it.id))).foldl mapSet []
  candidates.foldl mapSet base

/-- One overlap test and push of the inner loop of resolveBumps: given the
fixed bumper and one connection, return the displacement event when the
connection moves.  The center comparison of the source divides the pixel
width by 2; both sides are scaled by 2 here, which is exact. -/
def bumpStep (cellSize : Int) (bumper conn : PhysicsItem) : Option BumpEvent :=
  if conn.id == bumper.id then none
  else
    let bumperRight := bumper.x + bumper.widthUnits * cellSize
    let overlapX := (bumper.x < conn.x + conn.widthUnits * cellSize)
      && (bumperRight > conn.x)
    let overlapY := (bumper.y < conn.y + cellSize)
      && (bumper.y + cellSize > conn.y)
    if overlapX && overlapY then
      let pushedRight : Bool :=
        2 * bumper.x + bumper.widthUnits * cellSize
          ≤ 2 * conn.x + conn.widthUnits * cellSize
      let raw := if pushedRight then bumperRight
        else bumper.x - conn.widthUnits * cellSize
      let newX := if raw < 0 then 0 else raw
      if newX ≠ conn.x then
        some { connId := conn.id, bumperId := bumper.id,
               bumperX := bumper.x, bumperY := bumper.y,
               bumperW := bumper.widthUnits,
               connY := conn.y, connW := conn.widthUnits,
               oldX := conn.x, newX := newX, pushedRight := pushedRight }
      else none
    else none

/-- One full pass of the dequeued bumper over the working set: every
connection is tested against the fixed bumper and updated independently;
the displacement events are collected in traversal order. -/
def passItems (cellSize : Int) (bumper : PhysicsItem)
    (m : List PhysicsItem) : List PhysicsItem :=
  m.map (fun conn =>
    match bumpStep cellSize bumper conn with
    | some e => { conn with x := e.newX }
    | none => conn)

def passEvents (cellSize : Int) (bumper : PhysicsItem)
    (m : List PhysicsItem) : List BumpEvent :=
  m.filterMap (bumpStep cellSize bumper)

/-- A propagation queue entry: the initial candidates enter the queue as
fixed snapshots (the source copies them into the map but enqueues the
original records), while items displaced later are enqueued as live
references into the working set, modelled by their id. -/
inductive QEntry where
  | snap (item : PhysicsItem)
  | live (id : Nat)
  deriving Repr, DecidableEq

/-- The propagation loop of resolveBumps, with the iteration ceiling as
explicit fuel (the source stops after 1000 dequeues). -/
def bumpGo (cellSize : Int) :
    Nat → List QEntry → List PhysicsItem → List PhysicsItem × List BumpEvent
  | 0, _, m => (m, [])
  | _ + 1, [], m => (m, [])
  | fuel + 1, q :: qs, m =>
    let bumper? := match q with
      | QEntry.snap s => some s
      | QEntry.live i => m.find? (fun it => it.id == i)
    match bumper? with
    | none => bumpGo cellSize fuel qs m
    | some bumper =>
      let evs := passEvents cellSize bumper m
      let m' := passItems cellSize bumper m
      let pushed := evs.map (fun e => QEntry.live e.connId)
      let rest := bumpGo cellSize fuel (qs ++ pushed) m'
      (rest.1, evs ++ rest.2)

/-- resolveBumps together with its displacement trace. -/
def resolveBumpsTrace (candidates allItems : List PhysicsItem)
    (cellSize : Int) : List PhysicsItem × List BumpEvent :=
  bumpGo cellSize 1000 (candidates.map QEntry.snap)
    (buildMap candidates allItems)

/-- Embedding of resolveBumps: the resulting working set in insertion
order, after propagating all displacements. -/
def resolveBumps (candidates allItems : List PhysicsItem)
    (cellSize : Int) : List PhysicsItem :=
  (resolveBumpsTrace candidates allItems cellSize).1

/-- The last displacement event recorded for an item id, if any. -/
def lastEventFor (evs : List BumpEvent) (i : Nat) : Option BumpEvent :=
  evs.reverse.find? (fun e => e.connId == i)

/-- x of the first item with the given id (0 when absent). -/
def xOf (m : List PhysicsItem) (i : Nat) : Int :=
  match m.find? (fun it => it.id == i) with
  | some it => it.x
  | none => 0

/-- y of the first item with the given id (0 when absent). -/
def yOf (m : List PhysicsItem) (i : Nat) : Int :=
  match m.find? (fun it => it.id == i) with
  | some it => it.y
  | none => 0

/-- widthUnits of the first item with the given id (0 when absent). -/
def wOf (m : List PhysicsItem) (i : Nat) : Int :=
  match m.find? (fun it => it.id == i) with
  | some it => it.widthUnits
  | none => 0

/-- Insert a into an ascending run, after every element it does not have
to precede; ties keep the earlier element first. -/
def insertAsc {α : Type} (le : α → α → Bool) (a : α) : List α → List α
  | [] => [a]
  | b :: bs => if le b a then b :: insertAsc le a bs else a :: b :: bs

/-- Stable insertion sort.  The source uses the JavaScript stable
Array.sort with a numeric comparator; any two stable sorts under the same
total preorder return the same list, so this is an exact model. -/
def stableSort {α : Type} (le : α → α → Bool) (l : List α) : List α :=
  l.foldl (fun acc a => insertAsc le a acc) []

/-- The contiguous chain walk of resolveBackfill: consume the sorted row
items while each starts within 2px of the expected start, advancing the
expected start by the consumed pixel width; stop at the first gap.  The
items are tracked by their position (index) in the input list, which
models the object identity the source mutates through. -/
def backfillChain (cellSize : Int) :
    List (Nat × PhysicsItem) → Int → List Nat
  | [], _ => []
  | p :: rest, start =>
    if (p.2.x - start).natAbs < 2 then
      p.1 :: backfillChain cellSize rest (start + p.2.widthUnits * cellSize)
    else []

/-- Embedding of resolveBackfill: filter the row items at or right of the
gap (with the 1px tolerances of the source), sort ascending by x, walk the
contiguous chain from the right edge of the gap, and shift every chained
item left by the pixel width of the gap. -/
def resolveBackfill (gapX gapY gapWidthUnits : Int)
    (allItems : List PhysicsItem) (cellSize : Int) : List PhysicsItem :=
  let gapRightEdge := gapX + gapWidthUnits * cellSize
  let shiftAmount := gapWidthUnits * cellSize
  let indexed := allItems.enum
  let rowItems := stableSort (fun p q => p.2.x ≤ q.2.x)
    (indexed.filter (fun p =>
      ((p.2.y - gapY).natAbs < 1) && (gapRightEdge - 1 ≤ p.2.x)))
  let chain := backfillChain cellSize rowItems gapRightEdge
  indexed.map (fun p =>
    if chain.contains p.1 then { p.2 with x := p.2.x - shiftAmount }
    else p.2)

structure DragArg where
  id : Nat
  targetX : Int
  targetY : Int
  deriving Repr, DecidableEq

structure LayoutOptions where
  isBackfillMode : Bool
  isBumpMode : Bool
  gridWidth : Int
  gridHeight : Int
  deriving Repr, DecidableEq

structure LayoutOutcome where
  items : List PhysicsItem
  isValid : Bool
  draggedItems : List PhysicsItem
  deriving Repr, DecidableEq

/-- Step 1 of calculateLayoutOutcome: resolve each dragged id against the
authoritative list and clone the original at its target. -/
def resolveDragged (args : List DragArg)
    (allItems : List PhysicsItem) : List PhysicsItem :=
  args.filterMap (fun a =>
    (allItems.find? (fun i => i.id == a.id)).map
      (fun original => { original with x := a.targetX, y := a.targetY }))

/-- The backfill trigger test: true when the target rectangle does not
overlap the original rectangle of the dragged item. -/
def targetClearsOrigin (arg : DragArg) (original : PhysicsItem)
    (cellSize : Int) : Bool :=
  let widthPx := original.widthUnits * cellSize
  let overlapX := (arg.targetX < original.x + widthPx)
    && (arg.targetX + widthPx > original.x)
  let overlapY := (arg.targetY < original.y + cellSize)
    && (arg.targetY + cellSize > original.y)
  !(overlapX && overlapY)

/-- The gaps recorded by step 3 of calculateLayoutOutcome: the original
rectangle (x, y, widthUnits) of every dragged item that resolves and whose
target clears its origin. -/
def backfillOrigins (args : List DragArg) (allItems : List PhysicsItem)
    (cellSize : Int) : List (Int × Int × Int) :=
  args.filterMap (fun arg =>
    match allItems.find? (fun i => i.id == arg.id) with
    | some original =>
      if targetClearsOrigin arg original cellSize then
        some (original.x, original.y, original.widthUnits)
      else none
    | none => none)

/-- The group feasibility test of the plain-mode relocation search: the
anchor and every offset member must be collision free against the world
and inside the grid. -/
def checkGroup (anchor : PhysicsItem) (others : List PhysicsItem)
    (offsets : List (Int × Int)) (world : List PhysicsItem)
    (cellSize gridWidth gridHeight : Int) (ax ay : Int) : Bool :=
  if checkCollision { anchor with x := ax, y := ay } world cellSize then
    false
  else if (ax < 0) || (ay < 0)
      || (ax + anchor.widthUnits * cellSize > gridWidth)
      || (ay + cellSize > gridHeight) then
    false
  else
    (others.zip offsets).all (fun p =>
      let ox := ax + p.2.1
      let oy := ay + p.2.2
      !(checkCollision { p.1 with x := ox, y := oy } world cellSize)
        && !((ox < 0) || (oy < 0)
          || (ox + p.1.widthUnits * cellSize > gridWidth)
          || (oy + cellSize > gridHeight)))

/-- The plain-mode rigid group relocation: keep the targets when the group
is feasible there, otherwise scan the rings around the target of the first
drag argument and shift the whole group to the first feasible anchor; keep
the targets when nothing is found. -/
def relocateGroup (anchorArg : DragArg) (dragged : List PhysicsItem)
    (world : List PhysicsItem) (cellSize gridWidth gridHeight : Int) :
    List PhysicsItem :=
  match dragged with
  | [] => []
  | anchor :: others =>
    let offsets := others.map (fun o => (o.x - anchor.x, o.y - anchor.y))
    if checkGroup anchor others offsets world cellSize gridWidth gridHeight
        anchor.x anchor.y then
      anchor :: others
    else
      match searchOffsets.find? (fun d =>
          checkGroup anchor others offsets world cellSize gridWidth gridHeight
            (anchorArg.targetX + d.1 * cellSize)
            (anchorArg.targetY + d.2 * cellSize)) with
      | some d =>
        let tx := anchorArg.targetX + d.1 * cellSize
        let ty := anchorArg.targetY + d.2 * cellSize
        { anchor with x := tx, y := ty } ::
          (others.zip offsets).map (fun p =>
            { p.1 with x := tx + p.2.1, y := ty + p.2.2 })
      | none => anchor :: others

/-- Step 2 of calculateLayoutOutcome: the world without the dragged
items (a clone of every item whose id was not resolved as dragged). -/
def draggedWorld (args : List DragArg)
    (allItems : List PhysicsItem) : List PhysicsItem :=
  allItems.filter (fun i =>
    !(((resolveDragged args allItems).map (fun d => d.id)).contains i.id))

/-- Step 3 of calculateLayoutOutcome: the recorded gaps, sorted by
descending original x (stable, as the source sort), each fed through
resolveBackfill over the world state. -/
def backfilledWorld (args : List DragArg) (allItems : List PhysicsItem)
    (cellSize : Int) : List PhysicsItem :=
  (stableSort (fun p q => q.1 ≤ p.1)
      (backfillOrigins args allItems cellSize)).foldl
    (fun w o => resolveBackfill o.1 o.2.1 o.2.2 w cellSize)
    (draggedWorld args allItems)

/-- Embedding of calculateLayoutOutcome (the multi-drag orchestrator):
resolve the dragged ids, report an invalid unchanged copy when none
resolve, otherwise build the world without the dragged items, compact the
recorded gaps in descending original-x order when backfill mode is on,
then either run bump propagation or the plain collision path with the
rigid group relocation. -/
def calculateLayoutOutcome (draggedItemsArgs : List DragArg)
    (allItems : List PhysicsItem) (cellSize : Int)
    (options : LayoutOptions) : LayoutOutcome :=
  let outputDraggedItems := resolveDragged draggedItemsArgs allItems
  if outputDraggedItems.isEmpty then
    { items := allItems, isValid := false, draggedItems := [] }
  else
    let worldState :=
      if options.isBackfillMode then
        backfilledWorld draggedItemsArgs allItems cellSize
      else draggedWorld draggedItemsArgs allItems
    if options.isBumpMode then
      { items := resolveBumps outputDraggedItems worldState cellSize,
        isValid := true,
        draggedItems := outputDraggedItems }
    else
      let collisionDetected := outputDraggedItems.any
        (fun cand => checkCollision cand worldState cellSize)
      let finalDragged :=
        if collisionDetected then
          match draggedItemsArgs with
          | [] => outputDraggedItems
          | a0 :: _ =>
            relocateGroup a0 outputDraggedItems worldState cellSize
              options.gridWidth options.gridHeight
        else outputDraggedItems
      { items := worldState ++ finalDragged,
        isValid := true,
        draggedItems := finalDragged }

/-- The indices selected by one resolveBackfill call: the chain of the
sorted, filtered row items. -/
def backfillChainOf (gapX gapY gapWidthUnits : Int)
    (allItems : List PhysicsItem) (cellSize : Int) : List Nat :=
  backfillChain cellSize
    (stableSort (fun p q => p.2.x ≤ q.2.x)
      (allItems.enum.filter (fun p =>
        ((p.2.y - gapY).natAbs < 1)
          && (gapX + gapWidthUnits * cellSize - 1 ≤ p.2.x))))
    (gapX + gapWidthUnits * cellSize)

/-- The ids of a working set, in order. -/
def idsOf (m : List PhysicsItem) : List Nat :=
  m.map (fun i => i.id)

/-- The x an item has after a list of displacement events: the newX of its
last event, or its initial x when it was never displaced. -/
def xAfter (init : List PhysicsItem) (evs : List BumpEvent) (i : Nat) : Int :=
  match lastEventFor evs i with
  | some e => e.newX
  | none => xOf init i

/-- The working set obtained from the initial one by applying a list of
displacement events. -/
def shiftX (init : List PhysicsItem) (evs : List BumpEvent) :
    List PhysicsItem :=
  init.map (fun it => { it with x := xAfter init evs it.id })

/-- The raw push target of an event before the clamp at zero: the bumper
right edge for a right push, the bumper left edge minus the connection
width for a left push. -/
def rawOf (cs : Int) (e : BumpEvent) : Int :=
  if e.pushedRight then e.bumperX + e.bumperW * cs
  else e.bumperX - e.connW * cs

/-- Everything one displacement event of a run guarantees, relative to the
events before it: the connection data agrees with the initial working set
(its x through the earlier events), the boxes overlapped on both axes, the
push direction follows the center comparison, the new x is the raw push
target clamped at zero and differs from the old x, and the bumper was
either one of the candidate snapshots or a live item already displaced by
an earlier event, read at its position after the earlier events. -/
def EventOK (cands init : List PhysicsItem) (cs : Int)
    (past : List BumpEvent) (e : BumpEvent) : Prop :=
  e.connId ∈ idsOf init
  ∧ e.connId ≠ e.bumperId
  ∧ e.connY = yOf init e.connId
  ∧ e.connW = wOf init e.connId
  ∧ e.oldX = xAfter init past e.connId
  ∧ e.newX = (if rawOf cs e < 0 then 0 else rawOf cs e)
  ∧ e.newX ≠ e.oldX
  ∧ (e.pushedRight = true ↔
      2 * e.bumperX + e.bumperW * cs ≤ 2 * e.oldX + e.connW * cs)
  ∧ e.bumperX < e.oldX + e.connW * cs
  ∧ e.oldX < e.bumperX + e.bumperW * cs
  ∧ e.bumperY < e.connY + cs
  ∧ e.connY < e.bumperY + cs
  ∧ ((∃ s ∈ cands, e.bumperId = s.id ∧ e.bumperX = s.x ∧ e.bumperY = s.y
        ∧ e.bumperW = s.widthUnits)
     ∨ (e.bumperId ∈ idsOf init ∧ e.bumperY = yOf init e.bumperId
        ∧ e.bumperW = wOf init e.bumperId
        ∧ e.bumperX = xAfter init past e.bumperId
        ∧ ∃ e2 ∈ past, e2.connId = e.bumperId))

/-- A full event trace is well formed when every event is well formed
relative to the events before it. -/
def TraceOK (cands init : List PhysicsItem) (cs : Int) :
    List BumpEvent → List BumpEvent → Prop
  | _, [] => True
  | past, e :: rest =>
    EventOK cands init cs past e ∧ TraceOK cands init cs (past ++ [e]) rest

/-- An item of the working set agrees with the initial set at its id, with
its x advanced through the past events. -/
def Registered (init : List PhysicsItem) (past : List BumpEvent)
    (conn : PhysicsItem) : Prop :=
  conn.id ∈ idsOf init ∧ conn.y = yOf init conn.id
  ∧ conn.widthUnits = wOf init conn.id
  ∧ conn.x = xAfter init past conn.id

/-- A dequeued bumper is either a candidate snapshot or a live working-set
item that some past event displaced. -/
def BumperOK (cands init : List PhysicsItem) (past : List BumpEvent)
    (bumper : PhysicsItem) : Prop :=
  bumper ∈ cands
  ∨ (bumper.id ∈ idsOf init ∧ bumper.y = yOf init bumper.id
    ∧ bumper.widthUnits = wOf init bumper.id
    ∧ bumper.x = xAfter init past bumper.id
    ∧ ∃ e2 ∈ past, e2.connId = bumper.id)

/-- Queue entries are candidate snapshots or live ids of items already
displaced. -/
def QueueOK (cands init : List PhysicsItem) (past : List BumpEvent)
    (q : List QEntry) : Prop :=
  ∀ entry ∈ q,
    match entry with
    | QEntry.snap s => s ∈ cands
    | QEntry.live i => i ∈ idsOf init ∧ ∃ e ∈ past, e.connId = i

/-- The per-item update shiftX applies. -/
def shiftFun (init : List PhysicsItem) (evs : List BumpEvent) :
    PhysicsItem → PhysicsItem :=
  fun it => { it with x := xAfter init evs it.id }

/-- C9: checkCollision returns true exactly when some listed item with a
different id overlaps the candidate box strictly on both axes; touching
edges never collide and a shared id suppresses collision regardless of
geometry. -/
theorem c9_checkCollision_iff (c : PhysicsItem) (others : List PhysicsItem)
    (cs : Int) :
    checkCollision c others cs = true ↔
      ∃ o ∈ others, o.id ≠ c.id ∧
        c.x < o.x + o.widthUnits * cs ∧ o.x < c.x + c.widthUnits * cs ∧
        c.y < o.y + cs ∧ o.y < c.y + cs := by
  simp only [checkCollision, List.any_eq_true]
  constructor
  · rintro ⟨o, ho, hcond⟩
    refine ⟨o, ho, ?_⟩
    by_cases hid : o.id == c.id
    · simp [hid] at hcond
    · simp only [hid, Bool.false_eq_true, if_false, Bool.and_eq_true,
        decide_eq_true_eq] at hcond
      exact ⟨by simpa using hid, hcond.1.1, hcond.1.2, hcond.2.1, hcond.2.2⟩
  · rintro ⟨o, ho, hid, h1, h2, h3, h4⟩
    refine ⟨o, ho, ?_⟩
    have : (o.id == c.id) = false := by simpa using hid
    simp [this, h1, h2, h3, h4]

/-- Witness for C9 at a concrete input: two unit boxes offset by half a
cell overlap. -/
theorem c9_checkCollision_iff_witness :
    checkCollision ⟨1, 0, 0, 1⟩ [⟨2, 25, 0, 1⟩] 50 = true :=
  (c9_checkCollision_iff ⟨1, 0, 0, 1⟩ [⟨2, 25, 0, 1⟩] 50).mpr
    ⟨⟨2, 25, 0, 1⟩, by simp, by decide, by decide, by decide, by decide, by decide⟩

theorem mem_intRangeAux {n : Nat} : ∀ {lo a : Int},
    a ∈ intRangeAux lo n ↔ lo ≤ a ∧ a < lo + n := by
  induction n with
  | zero =>
    intro lo a
    simp only [intRangeAux, List.not_mem_nil, false_iff]
    omega
  | succ n ih =>
    intro lo a
    simp only [intRangeAux, List.mem_cons, ih]
    omega

theorem mem_intRange {lo hi a : Int} : a ∈ intRange lo hi ↔ lo ≤ a ∧ a ≤ hi := by
  rw [intRange, mem_intRangeAux]
  omega

theorem ringPairs_mem {r : Nat} {dx dy : Int} (hx : dx.natAbs ≤ r)
    (hy : dy.natAbs ≤ r) (hmax : dx.natAbs = r ∨ dy.natAbs = r) :
    (dx, dy) ∈ ringPairs r := by
  simp only [ringPairs, List.mem_flatMap, List.mem_filterMap]
  refine ⟨dx, mem_intRange.mpr ⟨by omega, by omega⟩,
    dy, mem_intRange.mpr ⟨by omega, by omega⟩, ?_⟩
  have hcond : (dx.natAbs == r || dy.natAbs == r) = true := by
    rcases hmax with h | h <;> simp [h]
  simp [hcond]

theorem searchOffsets_mem {dx dy : Int} (h1 : 1 ≤ max dx.natAbs dy.natAbs)
    (h10 : max dx.natAbs dy.natAbs ≤ 10) : (dx, dy) ∈ searchOffsets := by
  simp only [searchOffsets, List.mem_flatMap, List.mem_range]
  refine ⟨max dx.natAbs dy.natAbs - 1, by omega, ?_⟩
  have hr : max dx.natAbs dy.natAbs - 1 + 1 = max dx.natAbs dy.natAbs := by
    omega
  rw [hr]
  exact ringPairs_mem (Nat.le_max_left _ _) (Nat.le_max_right _ _) (by omega)

theorem searchOffsets_bound {d : Int × Int} (h : d ∈ searchOffsets) :
    d.1.natAbs ≤ 10 ∧ d.2.natAbs ≤ 10 := by
  simp only [searchOffsets, List.mem_flatMap, List.mem_range] at h
  obtain ⟨i, hilt, hmem⟩ := h
  simp only [ringPairs, List.mem_flatMap, List.mem_filterMap] at hmem
  obtain ⟨dx, hdx, dy, hdy, hif⟩ := hmem
  rw [mem_intRange] at hdx hdy
  split at hif
  · injection hif with hd
    subst hd
    constructor <;> simp <;> omega
  · cases hif

/-- C3 (counterexample): with an empty item list, target (100, 0),
widthUnits 1, cellSize 50 and a 100 by 50 grid, the cell-aligned in-bounds
collision-free position (50, 0) exists at Chebyshev radius 1 from the
target, yet the function returns the out-of-bounds target (100, 0)
unchanged, because the target itself is collision free and the initial
target check skips the grid-bounds test. -/
theorem c3_counterexample :
    validSlotAt 1 [] 1 50 100 50 50 0 = true
    ∧ findClosestValidPosition 1 [] 100 0 1 50 100 50 = (100, 0)
    ∧ inGridBounds 100 0 1 50 100 50 = false := by decide

/-- C3 (amended): when the target position itself collides, the claimed
behaviour holds: whenever a cell-aligned, in-bounds, collision-free
position exists within Chebyshev radius 10 of the target, the returned
position is cell-aligned, in-bounds and collision-free; and when no such
position exists, the function returns the pre-move position of the first
item with the dragged id, or (0, 0) when the id is absent.  (When the
target does not collide it is returned unchanged, even when it lies
outside the grid.) -/
theorem c3_amended (itemId : Nat) (items : List PhysicsItem)
    (tx ty w cs gw gh ax ay : Int)
    (hax : tx = ax * cs) (hay : ty = ay * cs) (hw : 0 < w)
    (hcoll : checkCollision
      { id := itemId, x := tx, y := ty, widthUnits := w } items cs = true) :
    ((∃ dx dy : Int, dx.natAbs ≤ 10 ∧ dy.natAbs ≤ 10 ∧
        validSlotAt itemId items w cs gw gh
          (tx + dx * cs) (ty + dy * cs) = true) →
      (∃ bx cy : Int,
          (findClosestValidPosition itemId items tx ty w cs gw gh).1 = bx * cs ∧
          (findClosestValidPosition itemId items tx ty w cs gw gh).2 = cy * cs) ∧
        validSlotAt itemId items w cs gw gh
          (findClosestValidPosition itemId items tx ty w cs gw gh).1
          (findClosestValidPosition itemId items tx ty w cs gw gh).2 = true)
    ∧ ((∀ dx dy : Int, dx.natAbs ≤ 10 → dy.natAbs ≤ 10 →
        validSlotAt itemId items w cs gw gh
          (tx + dx * cs) (ty + dy * cs) = false) →
      findClosestValidPosition itemId items tx ty w cs gw gh =
        match items.find? (fun i => i.id == itemId) with
        | some original => (original.x, original.y)
        | none => (0, 0)) := by
  constructor
  · rintro ⟨dx, dy, hdx, hdy, hvalid⟩
    have hne : ¬(dx = 0 ∧ dy = 0) := by
      rintro ⟨rfl, rfl⟩
      simp only [validSlotAt, zero_mul, add_zero, Bool.and_eq_true,
        Bool.not_eq_true'] at hvalid
      rw [hvalid.2] at hcoll
      cases hcoll
    have hmem : (dx, dy) ∈ searchOffsets :=
      searchOffsets_mem (by omega) (by omega)
    set p := fun d : Int × Int =>
      validSlotAt itemId items w cs gw gh
        (tx + d.1 * cs) (ty + d.2 * cs) with hp
    have hfind : searchOffsets.find? p ≠ none := by
      intro hnone
      have := List.find?_eq_none.mp hnone (dx, dy) hmem
      exact this hvalid
    obtain ⟨d, hd⟩ : ∃ d, searchOffsets.find? p = some d :=
      Option.ne_none_iff_exists'.mp hfind
    have hpd : p d = true := List.find?_some hd
    have hres : findClosestValidPosition itemId items tx ty w cs gw gh =
        (tx + d.1 * cs, ty + d.2 * cs) := by
      simp only [findClosestValidPosition, hcoll, Bool.not_true,
        Bool.false_eq_true, if_false]
      rw [← hp, hd]
    rw [hres]
    refine ⟨⟨ax + d.1, ay + d.2, by rw [hax]; ring, by rw [hay]; ring⟩, ?_⟩
    exact hpd
  · intro hnone
    have hfind : searchOffsets.find? (fun d : Int × Int =>
        validSlotAt itemId items w cs gw gh
          (tx + d.1 * cs) (ty + d.2 * cs)) = none := by
      apply List.find?_eq_none.mpr
      intro d hd hvalid
      obtain ⟨h1, h2⟩ := searchOffsets_bound hd
      have := hnone d.1 d.2 h1 h2
      rw [this] at hvalid
      cases hvalid
    simp only [findClosestValidPosition, hcoll, Bool.not_true,
      Bool.false_eq_true, if_false]
    rw [hfind]

/-- Witness for C3 (amended) at a concrete input: the target (50, 0) is
blocked by an item, and the search lands on a valid slot. -/
theorem c3_amended_witness :
    validSlotAt 1 [⟨9, 50, 0, 1⟩] 1 50 200 50
      (findClosestValidPosition 1 [⟨9, 50, 0, 1⟩] 50 0 1 50 200 50).1
      (findClosestValidPosition 1 [⟨9, 50, 0, 1⟩] 50 0 1 50 200 50).2 = true :=
  ((c3_amended 1 [⟨9, 50, 0, 1⟩] 50 0 1 50 200 50 1 0 (by decide) (by decide)
    (by decide) (by decide)).1 ⟨-1, 0, by decide, by decide, by decide⟩).2

/-- C4 (counterexample): with candidate A moved to x=80 (as the claim
fixes) against B at 100 and C at 200, all width 2 at cellSize 50, the
resolution puts C at 280 (the right edge of B at its bumped position 180),
not at the claimed 250. -/
theorem c4_counterexample :
    xOf (resolveBumps [⟨1, 80, 0, 2⟩]
      [⟨1, 0, 0, 2⟩, ⟨2, 100, 0, 2⟩, ⟨3, 200, 0, 2⟩] 50) 3 = 280
    ∧ (280 : Int) ≠ 250 := by decide

/-- C4 (amended): moving A to x=80 against B at 100 yields B at 180 (the
right edge of A); in the chained configuration with C at 200, that same
move yields C at 280 (the right edge of the bumped B).  The outcome C=250
arises from the test-suite chain, where A moves to x=50 instead, bumping B
to 150 and C to 250. -/
theorem c4_amended :
    xOf (resolveBumps [⟨1, 80, 0, 2⟩]
      [⟨1, 0, 0, 2⟩, ⟨2, 100, 0, 2⟩] 50) 2 = 180
    ∧ xOf (resolveBumps [⟨1, 80, 0, 2⟩]
      [⟨1, 0, 0, 2⟩, ⟨2, 100, 0, 2⟩, ⟨3, 200, 0, 2⟩] 50) 2 = 180
    ∧ xOf (resolveBumps [⟨1, 80, 0, 2⟩]
      [⟨1, 0, 0, 2⟩, ⟨2, 100, 0, 2⟩, ⟨3, 200, 0, 2⟩] 50) 3 = 280
    ∧ xOf (resolveBumps [⟨1, 50, 0, 2⟩]
      [⟨1, 0, 0, 2⟩, ⟨2, 100, 0, 2⟩, ⟨3, 200, 0, 2⟩] 50) 2 = 150
    ∧ xOf (resolveBumps [⟨1, 50, 0, 2⟩]
      [⟨1, 0, 0, 2⟩, ⟨2, 100, 0, 2⟩, ⟨3, 200, 0, 2⟩] 50) 3 = 250 := by decide

/-- C2 (counterexample): candidate A(id 1) at x=80 w=2 against a world of
B(id 2)@100 w=2, X(id 3)@180 w=2, Z(id 4)@250 w=1, cellSize 50.  Item X is
displaced exactly once, pushed right by B; after resolution X sits at 280
while the right edge of B (displaced later by Z) is at 230, so the
displaced item neither touches nor overlaps the item that displaced it. -/
theorem c2_counterexample :
    (lastEventFor
        (resolveBumpsTrace [⟨1, 80, 0, 2⟩]
          [⟨2, 100, 0, 2⟩, ⟨3, 180, 0, 2⟩, ⟨4, 250, 0, 1⟩] 50).2 3).map
      (fun e => (e.bumperId, e.pushedRight)) = some (2, true)
    ∧ xOf (resolveBumps [⟨1, 80, 0, 2⟩]
        [⟨2, 100, 0, 2⟩, ⟨3, 180, 0, 2⟩, ⟨4, 250, 0, 1⟩] 50) 3 = 280
    ∧ xOf (resolveBumps [⟨1, 80, 0, 2⟩]
        [⟨2, 100, 0, 2⟩, ⟨3, 180, 0, 2⟩, ⟨4, 250, 0, 1⟩] 50) 2
      + wOf (resolveBumps [⟨1, 80, 0, 2⟩]
        [⟨2, 100, 0, 2⟩, ⟨3, 180, 0, 2⟩, ⟨4, 250, 0, 1⟩] 50) 2 * 50 = 230
    ∧ (280 : Int) ≠ 230 := by decide

/-- C1: cellSize 50, A(id 1)@0, B(id 2)@100, C(id 3)@200, all width 2 in
one row; dragging B to (0, 0) with backfill and bump on yields B at 0, A
at 100 and C at 200: the vacated gap of B first backfills C to 100, then B
bumps A to 100 and A bumps C back to 200. -/
theorem c1_endToEnd_backfill_bump :
    xOf (calculateLayoutOutcome [⟨2, 0, 0⟩]
      [⟨1, 0, 0, 2⟩, ⟨2, 100, 0, 2⟩, ⟨3, 200, 0, 2⟩] 50
      ⟨true, true, 1000, 1000⟩).items 2 = 0
    ∧ xOf (calculateLayoutOutcome [⟨2, 0, 0⟩]
      [⟨1, 0, 0, 2⟩, ⟨2, 100, 0, 2⟩, ⟨3, 200, 0, 2⟩] 50
      ⟨true, true, 1000, 1000⟩).items 1 = 100
    ∧ xOf (calculateLayoutOutcome [⟨2, 0, 0⟩]
      [⟨1, 0, 0, 2⟩, ⟨2, 100, 0, 2⟩, ⟨3, 200, 0, 2⟩] 50
      ⟨true, true, 1000, 1000⟩).items 3 = 200 := by decide

theorem mem_insertAsc {α : Type} {le : α → α → Bool} {a b : α} :
    ∀ {l : List α}, a ∈ insertAsc le b l ↔ a = b ∨ a ∈ l := by
  intro l
  induction l with
  | nil => simp [insertAsc]
  | cons c cs ih =>
    simp only [insertAsc]
    split <;> simp only [List.mem_cons, ih] <;> tauto

theorem mem_stableSort {α : Type} {le : α → α → Bool} {a : α} {l : List α} :
    a ∈ stableSort le l ↔ a ∈ l := by
  have key : ∀ (l acc : List α),
      a ∈ l.foldl (fun acc x => insertAsc le x acc) acc ↔ a ∈ acc ∨ a ∈ l := by
    intro l
    induction l with
    | nil => simp
    | cons c cs ih =>
      intro acc
      simp only [List.foldl_cons, ih, mem_insertAsc, List.mem_cons]
      tauto
  simpa [stableSort] using key l []

theorem backfillChain_sub {cellSize : Int} :
    ∀ {l : List (Nat × PhysicsItem)} {start : Int} {k : Nat},
      k ∈ backfillChain cellSize l start → ∃ p ∈ l, p.1 = k := by
  intro l
  induction l with
  | nil => intro start k h; cases h
  | cons p rest ih =>
    intro start k h
    simp only [backfillChain] at h
    split at h
    · rcases List.mem_cons.mp h with h | h
      · exact ⟨p, List.mem_cons_self _ _, h.symm⟩
      · obtain ⟨q, hq, hqk⟩ := ih h
        exact ⟨q, List.mem_cons_of_mem _ hq, hqk⟩
    · cases h

theorem resolveBackfill_getElem? (gapX gapY gapWidthUnits : Int)
    (allItems : List PhysicsItem) (cellSize : Int) (k : Nat) :
    (resolveBackfill gapX gapY gapWidthUnits allItems cellSize)[k]? =
      allItems[k]?.map (fun it =>
        if (backfillChainOf gapX gapY gapWidthUnits allItems cellSize).contains k
        then { it with x := it.x - gapWidthUnits * cellSize }
        else it) := by
  simp only [resolveBackfill, backfillChainOf, List.getElem?_map,
    List.getElem?_enum, Option.map_map]
  cases allItems[k]? <;> rfl

/-- C6: the three pinned resolveBackfill scenarios hold, and in every call
an item at an index outside the identified chain, in particular every item
in a row other than gapY, keeps its position; every chained index lies in
the gap row. -/
theorem c6_resolveBackfill :
    resolveBackfill 0 0 2 [⟨1, 100, 0, 2⟩] 50 = [⟨1, 0, 0, 2⟩]
    ∧ resolveBackfill 0 0 2 [⟨1, 100, 0, 2⟩, ⟨2, 200, 0, 2⟩] 50
      = [⟨1, 0, 0, 2⟩, ⟨2, 100, 0, 2⟩]
    ∧ resolveBackfill 0 0 2 [⟨1, 100, 0, 2⟩, ⟨2, 250, 0, 2⟩] 50
      = [⟨1, 0, 0, 2⟩, ⟨2, 250, 0, 2⟩]
    ∧ (∀ (gapX gapY gapWidthUnits cellSize : Int)
        (allItems : List PhysicsItem) (k : Nat) (it : PhysicsItem),
        allItems[k]? = some it →
        ¬ k ∈ backfillChainOf gapX gapY gapWidthUnits allItems cellSize →
        (resolveBackfill gapX gapY gapWidthUnits allItems cellSize)[k]?
          = some it)
    ∧ (∀ (gapX gapY gapWidthUnits cellSize : Int)
        (allItems : List PhysicsItem) (k : Nat),
        k ∈ backfillChainOf gapX gapY gapWidthUnits allItems cellSize →
        ∃ it, allItems[k]? = some it ∧ (it.y - gapY).natAbs < 1)
    ∧ (∀ (gapX gapY gapWidthUnits cellSize : Int)
        (allItems : List PhysicsItem) (k : Nat) (it : PhysicsItem),
        allItems[k]? = some it →
        1 ≤ (it.y - gapY).natAbs →
        (resolveBackfill gapX gapY gapWidthUnits allItems cellSize)[k]?
          = some it) := by
  have hrow : ∀ (gapX gapY gapWidthUnits cellSize : Int)
      (allItems : List PhysicsItem) (k : Nat),
      k ∈ backfillChainOf gapX gapY gapWidthUnits allItems cellSize →
      ∃ it, allItems[k]? = some it ∧ (it.y - gapY).natAbs < 1 := by
    intro gapX gapY gapWidthUnits cellSize allItems k hk
    obtain ⟨p, hp, hpk⟩ := backfillChain_sub hk
    rw [mem_stableSort, List.mem_filter] at hp
    obtain ⟨hpe, hpred⟩ := hp
    have hpe2 : (p.1, p.2) ∈ allItems.enum := by simpa using hpe
    obtain ⟨hklt, hpeq⟩ := List.mem_enum hpe2
    subst hpk
    refine ⟨p.2, ?_, ?_⟩
    · rw [List.getElem?_eq_getElem hklt, hpeq]
    · simp only [Bool.and_eq_true, decide_eq_true_eq] at hpred
      exact hpred.1
  have hout : ∀ (gapX gapY gapWidthUnits cellSize : Int)
      (allItems : List PhysicsItem) (k : Nat) (it : PhysicsItem),
      allItems[k]? = some it →
      ¬ k ∈ backfillChainOf gapX gapY gapWidthUnits allItems cellSize →
      (resolveBackfill gapX gapY gapWidthUnits allItems cellSize)[k]?
        = some it := by
    intro gapX gapY gapWidthUnits cellSize allItems k it hk hnot
    rw [resolveBackfill_getElem?, hk]
    have hfalse : (backfillChainOf gapX gapY gapWidthUnits allItems
        cellSize).contains k = false := by simpa using hnot
    simp only [Option.map_some', hfalse, Bool.false_eq_true, if_false]
  refine ⟨by decide, by decide, by decide, hout, hrow, ?_⟩
  intro gapX gapY gapWidthUnits cellSize allItems k it hk hrow1
  apply hout _ _ _ _ _ _ _ hk
  intro hmem
  obtain ⟨it2, hit2, hlt⟩ := hrow _ _ _ _ _ _ hmem
  rw [hk] at hit2
  injection hit2 with h2
  rw [h2] at hrow1
  omega

/-- Witness for C6 at a concrete input: an item in another row keeps its
position under a backfill call. -/
theorem c6_resolveBackfill_witness :
    (resolveBackfill 0 0 2 [⟨7, 100, 50, 2⟩] 50)[0]? = some ⟨7, 100, 50, 2⟩ :=
  c6_resolveBackfill.2.2.2.2.2 0 0 2 50 [⟨7, 100, 50, 2⟩] 0
    ⟨7, 100, 50, 2⟩ (by decide) (by decide)

theorem resolveDragged_eq_nil_iff {args : List DragArg}
    {allItems : List PhysicsItem} :
    resolveDragged args allItems = []
      ↔ ∀ a ∈ args, ∀ it ∈ allItems, it.id ≠ a.id := by
  simp only [resolveDragged, List.filterMap_eq_nil_iff, Option.map_eq_none',
    List.find?_eq_none, beq_iff_eq]

theorem calculateLayoutOutcome_of_unresolved {args : List DragArg}
    {allItems : List PhysicsItem} {cs : Int} {opts : LayoutOptions}
    (h : resolveDragged args allItems = []) :
    calculateLayoutOutcome args allItems cs opts =
      { items := allItems, isValid := false, draggedItems := [] } := by
  simp [calculateLayoutOutcome, h]

theorem calculateLayoutOutcome_isValid_of_resolved {args : List DragArg}
    {allItems : List PhysicsItem} {cs : Int} {opts : LayoutOptions}
    (h : resolveDragged args allItems ≠ []) :
    (calculateLayoutOutcome args allItems cs opts).isValid = true := by
  rw [calculateLayoutOutcome]
  simp only [List.isEmpty_eq_false.mpr h, Bool.false_eq_true, if_false]
  split <;> rfl

/-- C7: isValid is false exactly when none of the requested dragged ids
occur in the authoritative list, and in that case the returned items are
the unchanged input; on every other path isValid is true. -/
theorem c7_isValid (args : List DragArg) (allItems : List PhysicsItem)
    (cs : Int) (opts : LayoutOptions) :
    ((calculateLayoutOutcome args allItems cs opts).isValid = false
      ↔ ∀ a ∈ args, ∀ it ∈ allItems, it.id ≠ a.id)
    ∧ ((∀ a ∈ args, ∀ it ∈ allItems, it.id ≠ a.id) →
      (calculateLayoutOutcome args allItems cs opts).items = allItems) := by
  by_cases h : resolveDragged args allItems = []
  · rw [calculateLayoutOutcome_of_unresolved h]
    exact ⟨by simpa using resolveDragged_eq_nil_iff.mp h,
      fun _ => rfl⟩
  · constructor
    · rw [calculateLayoutOutcome_isValid_of_resolved h]
      constructor
      · intro hc
        cases hc
      · intro hids
        exact absurd (resolveDragged_eq_nil_iff.mpr hids) h
    · intro hids
      exact absurd (resolveDragged_eq_nil_iff.mpr hids) h

/-- Witness for C7 at a concrete input: a drag request whose id is absent
reports an invalid, unchanged outcome. -/
theorem c7_isValid_witness :
    (calculateLayoutOutcome [⟨5, 0, 0⟩] [⟨1, 0, 0, 2⟩] 50
        ⟨false, false, 1000, 1000⟩).isValid = false
    ∧ (calculateLayoutOutcome [⟨5, 0, 0⟩] [⟨1, 0, 0, 2⟩] 50
        ⟨false, false, 1000, 1000⟩).items = [⟨1, 0, 0, 2⟩] :=
  ⟨(c7_isValid [⟨5, 0, 0⟩] [⟨1, 0, 0, 2⟩] 50
      ⟨false, false, 1000, 1000⟩).1.mpr (by decide),
   (c7_isValid [⟨5, 0, 0⟩] [⟨1, 0, 0, 2⟩] 50
      ⟨false, false, 1000, 1000⟩).2 (by decide)⟩

theorem map_id_of_zip (others : List PhysicsItem) (offs : List (Int × Int))
    (h : others.length ≤ offs.length)
    (g : PhysicsItem × (Int × Int) → PhysicsItem)
    (hg : ∀ p, (g p).id = p.1.id) :
    ((others.zip offs).map g).map (fun i => i.id)
      = others.map (fun i => i.id) := by
  have h1 : ((others.zip offs).map g).map (fun i => i.id)
      = (others.zip offs).map (fun p => p.1.id) := by
    rw [List.map_map]
    exact List.map_congr_left (fun p _ => hg p)
  have h2 : (others.zip offs).map (fun p => p.1.id)
      = ((others.zip offs).map Prod.fst).map (fun i => i.id) := by
    rw [List.map_map]
    rfl
  rw [h1, h2, List.map_fst_zip _ _ h]

theorem relocateGroup_ids (a0 : DragArg) (dragged world : List PhysicsItem)
    (cs gw gh : Int) :
    (relocateGroup a0 dragged world cs gw gh).map (fun i => i.id)
      = dragged.map (fun i => i.id) := by
  cases dragged with
  | nil => rfl
  | cons anchor others =>
    simp only [relocateGroup]
    split
    · rfl
    · split
      · simp only [List.map_cons, List.cons.injEq]
        exact ⟨trivial, map_id_of_zip _ _ (by simp) _ (fun p => rfl)⟩
      · rfl

theorem backfillOrigins_eq_nil {args : List DragArg}
    {allItems : List PhysicsItem} {cs : Int}
    (hoverlap : ∀ a ∈ args, ((allItems.find? (fun i => i.id == a.id)).all
      (fun original => !(targetClearsOrigin a original cs))) = true) :
    backfillOrigins args allItems cs = [] := by
  rw [backfillOrigins, List.filterMap_eq_nil_iff]
  intro a ha
  have hall := hoverlap a ha
  cases hfind : allItems.find? (fun i => i.id == a.id) with
  | none => rfl
  | some original =>
    rw [hfind] at hall
    simp only [Option.all_some, Bool.not_eq_true'] at hall
    simp [hall]

theorem calculateLayoutOutcome_plain_shape
    {args : List DragArg} {allItems : List PhysicsItem} {cs : Int}
    {opts : LayoutOptions}
    (h : resolveDragged args allItems ≠ []) (hbump : opts.isBumpMode = false) :
    ∃ fd : List PhysicsItem,
      (calculateLayoutOutcome args allItems cs opts).items =
        (if opts.isBackfillMode then backfilledWorld args allItems cs
         else draggedWorld args allItems) ++ fd
      ∧ fd.map (fun i => i.id)
        = (resolveDragged args allItems).map (fun i => i.id) := by
  cases args with
  | nil => exact absurd rfl h
  | cons a0 rest =>
    simp only [calculateLayoutOutcome, List.isEmpty_eq_false.mpr h,
      Bool.false_eq_true, if_false, hbump]
    refine ⟨_, rfl, ?_⟩
    split <;> split
    · exact relocateGroup_ids _ _ _ _ _ _
    · rfl
    · exact relocateGroup_ids _ _ _ _ _ _
    · rfl

/-- C5: in backfill-plus-plain mode, when the target rectangle of every
dragged item still overlaps its own original rectangle, no backfill gap is
recorded, and every non-dragged item keeps its input position in the
returned layout. -/
theorem c5_backfill_noop (args : List DragArg) (allItems : List PhysicsItem)
    (cs : Int) (opts : LayoutOptions)
    (hbf : opts.isBackfillMode = true) (hbump : opts.isBumpMode = false)
    (hoverlap : ∀ a ∈ args, ((allItems.find? (fun i => i.id == a.id)).all
      (fun original => !(targetClearsOrigin a original cs))) = true) :
    backfillOrigins args allItems cs = []
    ∧ (calculateLayoutOutcome args allItems cs opts).items.filter
        (fun i => !(((resolveDragged args allItems).map
          (fun d => d.id)).contains i.id))
      = allItems.filter
        (fun i => !(((resolveDragged args allItems).map
          (fun d => d.id)).contains i.id)) := by
  have horigins := backfillOrigins_eq_nil hoverlap
  refine ⟨horigins, ?_⟩
  have hworld : backfilledWorld args allItems cs = draggedWorld args allItems := by
    rw [backfilledWorld, horigins]
    rfl
  by_cases hres : resolveDragged args allItems = []
  · rw [calculateLayoutOutcome_of_unresolved hres]
  · obtain ⟨fd, hitems, hids⟩ := calculateLayoutOutcome_plain_shape hres hbump
    rw [hitems, hbf, if_pos rfl, hworld, List.filter_append]
    have h2 : fd.filter
        (fun i => !(((resolveDragged args allItems).map
          (fun d => d.id)).contains i.id)) = [] := by
      rw [List.filter_eq_nil_iff]
      intro i hi
      have hmem : i.id ∈ (resolveDragged args allItems).map (fun d => d.id) := by
        rw [← hids]
        exact List.mem_map_of_mem _ hi
      simp [hmem]
    rw [h2, List.append_nil, draggedWorld, List.filter_filter]
    simp only [Bool.and_self]

/-- Witness for C5 at a concrete input: dragging A back onto its own spot
with backfill on records no gap and leaves B in place. -/
theorem c5_backfill_noop_witness :
    backfillOrigins [⟨1, 0, 0⟩] [⟨1, 0, 0, 2⟩, ⟨2, 100, 0, 2⟩] 50 = []
    ∧ (calculateLayoutOutcome [⟨1, 0, 0⟩] [⟨1, 0, 0, 2⟩, ⟨2, 100, 0, 2⟩] 50
        ⟨true, false, 1000, 1000⟩).items.filter
        (fun i => !(((resolveDragged [⟨1, 0, 0⟩]
          [⟨1, 0, 0, 2⟩, ⟨2, 100, 0, 2⟩]).map
          (fun d => d.id)).contains i.id))
      = [⟨1, 0, 0, 2⟩, ⟨2, 100, 0, 2⟩].filter
        (fun i => !(((resolveDragged [⟨1, 0, 0⟩]
          [⟨1, 0, 0, 2⟩, ⟨2, 100, 0, 2⟩]).map
          (fun d => d.id)).contains i.id)) :=
  c5_backfill_noop [⟨1, 0, 0⟩] [⟨1, 0, 0, 2⟩, ⟨2, 100, 0, 2⟩] 50
    ⟨true, false, 1000, 1000⟩ rfl rfl (by decide)

theorem find?_unique {α : Type} {p : α → Bool} {l : List α} {a : α}
    (ha : a ∈ l) (hpa : p a = true)
    (huniq : ∀ b ∈ l, p b = true → b = a) : l.find? p = some a := by
  induction l with
  | nil => cases ha
  | cons h t ih =>
    by_cases hp : p h = true
    · rw [List.find?_cons_of_pos _ hp]
      rw [huniq h (List.mem_cons_self _ _) hp]
    · rw [List.find?_cons_of_neg _ hp]
      rcases List.mem_cons.mp ha with rfl | hmem
      · exact absurd hpa hp
      · exact ih hmem (fun b hb hpb => huniq b (List.mem_cons_of_mem _ hb) hpb)

theorem mem_unique_by_id {init : List PhysicsItem}
    (hnd : (idsOf init).Nodup) {a b : PhysicsItem}
    (ha : a ∈ init) (hb : b ∈ init) (hid : a.id = b.id) : a = b :=
  List.inj_on_of_nodup_map hnd ha hb hid

theorem find?_id_of_mem {init : List PhysicsItem}
    (hnd : (idsOf init).Nodup) {it : PhysicsItem} (hmem : it ∈ init) :
    init.find? (fun x => x.id == it.id) = some it := by
  apply find?_unique hmem (by simp)
  intro b hb hpb
  exact mem_unique_by_id hnd hb hmem (by simpa using hpb)

theorem xOf_of_mem {init : List PhysicsItem} (hnd : (idsOf init).Nodup)
    {it : PhysicsItem} (hmem : it ∈ init) : xOf init it.id = it.x := by
  rw [xOf, find?_id_of_mem hnd hmem]

theorem yOf_of_mem {init : List PhysicsItem} (hnd : (idsOf init).Nodup)
    {it : PhysicsItem} (hmem : it ∈ init) : yOf init it.id = it.y := by
  rw [yOf, find?_id_of_mem hnd hmem]

theorem wOf_of_mem {init : List PhysicsItem} (hnd : (idsOf init).Nodup)
    {it : PhysicsItem} (hmem : it ∈ init) :
    wOf init it.id = it.widthUnits := by
  rw [wOf, find?_id_of_mem hnd hmem]

theorem lastEventFor_nil {i : Nat} : lastEventFor [] i = none := rfl

theorem lastEventFor_append {evs1 evs2 : List BumpEvent} {i : Nat} :
    lastEventFor (evs1 ++ evs2) i =
      (lastEventFor evs2 i).or (lastEventFor evs1 i) := by
  rw [lastEventFor, List.reverse_append, List.find?_append]
  rfl

theorem xAfter_nil {init : List PhysicsItem} {i : Nat} :
    xAfter init [] i = xOf init i := rfl

theorem xAfter_append_single {init : List PhysicsItem}
    {past : List BumpEvent} {e : BumpEvent} {i : Nat} :
    xAfter init (past ++ [e]) i =
      if e.connId = i then e.newX else xAfter init past i := by
  rw [xAfter, lastEventFor_append]
  by_cases hc : e.connId = i
  · have : lastEventFor [e] i = some e := by
      simp [lastEventFor, hc]
    rw [this, if_pos hc]
    rfl
  · have : lastEventFor [e] i = none := by
      simp [lastEventFor]
      simpa using hc
    rw [this, if_neg hc]
    rfl

theorem xAfter_append {init : List PhysicsItem}
    {past evs : List BumpEvent} {i : Nat} :
    xAfter init (past ++ evs) i =
      match lastEventFor evs i with
      | some e => e.newX
      | none => xAfter init past i := by
  rw [xAfter, lastEventFor_append]
  cases lastEventFor evs i <;> rfl

theorem idsOf_shiftX {init : List PhysicsItem} {evs : List BumpEvent} :
    idsOf (shiftX init evs) = idsOf init := by
  simp [idsOf, shiftX, List.map_map]

theorem find?_map_id {f : PhysicsItem → PhysicsItem}
    (hf : ∀ it, (f it).id = it.id) (m : List PhysicsItem) (i : Nat) :
    (m.map f).find? (fun it => it.id == i) =
      (m.find? (fun it => it.id == i)).map f := by
  induction m with
  | nil => rfl
  | cons a t ih =>
    rw [List.map_cons, List.find?_cons, List.find?_cons, hf a]
    by_cases hc : (a.id == i) = true
    · rw [hc]
      rfl
    · rw [Bool.eq_false_iff.mpr hc]
      simpa using ih

theorem shiftX_nil {init : List PhysicsItem} (hnd : (idsOf init).Nodup) :
    shiftX init [] = init := by
  rw [shiftX]
  conv_rhs => rw [← List.map_id init]
  apply List.map_congr_left
  intro it hmem
  rw [xAfter_nil, xOf_of_mem hnd hmem]
  rfl

theorem bumpStep_eq_some {cs : Int} {bumper conn : PhysicsItem} {e : BumpEvent}
    (h : bumpStep cs bumper conn = some e) :
    e.connId = conn.id ∧ e.bumperId = bumper.id ∧ e.bumperX = bumper.x
    ∧ e.bumperY = bumper.y ∧ e.bumperW = bumper.widthUnits
    ∧ e.connY = conn.y ∧ e.connW = conn.widthUnits ∧ e.oldX = conn.x
    ∧ conn.id ≠ bumper.id
    ∧ bumper.x < conn.x + conn.widthUnits * cs
    ∧ conn.x < bumper.x + bumper.widthUnits * cs
    ∧ bumper.y < conn.y + cs ∧ conn.y < bumper.y + cs
    ∧ (e.pushedRight = true ↔
        2 * bumper.x + bumper.widthUnits * cs
          ≤ 2 * conn.x + conn.widthUnits * cs)
    ∧ e.newX = (if rawOf cs e < 0 then 0 else rawOf cs e)
    ∧ e.newX ≠ conn.x := by
  simp only [bumpStep] at h
  split at h
  · exact Option.noConfusion h
  next hid =>
    split at h
    next hov =>
      simp only [Bool.and_eq_true, decide_eq_true_eq] at hov
      split at h <;> split at h <;> split at h <;>
        first
        | exact Option.noConfusion h
        | (rename_i hpr hcl hne
           injection h with he
           subst he
           refine ⟨rfl, rfl, rfl, rfl, rfl, rfl, rfl, rfl, by simpa using hid,
             hov.1.1, hov.1.2, hov.2.1, hov.2.2, by simp, ?_, hne⟩
           simp [rawOf, hpr, hcl])
    next hov => exact Option.noConfusion h

theorem pass_TraceOK {cands init : List PhysicsItem} {cs : Int}
    {bumper : PhysicsItem} :
    ∀ (m : List PhysicsItem) (past : List BumpEvent),
      (∀ conn ∈ m, Registered init past conn) →
      (idsOf m).Nodup →
      BumperOK cands init past bumper →
      TraceOK cands init cs past (passEvents cs bumper m) := by
  intro m
  induction m with
  | nil =>
    intro past _ _ _
    trivial
  | cons conn rest ih =>
    intro past hreg hnd hb
    have hndtail : (idsOf rest).Nodup := by
      rw [idsOf, List.map_cons] at hnd
      exact (List.nodup_cons.mp hnd).2
    have hnotmem : conn.id ∉ idsOf rest := by
      rw [idsOf, List.map_cons] at hnd
      exact (List.nodup_cons.mp hnd).1
    cases hstep : bumpStep cs bumper conn with
    | none =>
      have hpe : passEvents cs bumper (conn :: rest)
          = passEvents cs bumper rest := by
        simp [passEvents, hstep]
      rw [hpe]
      exact ih past (fun c hc => hreg c (List.mem_cons_of_mem _ hc)) hndtail hb
    | some e =>
      have hpe : passEvents cs bumper (conn :: rest)
          = e :: passEvents cs bumper rest := by
        simp [passEvents, hstep]
      rw [hpe]
      obtain ⟨hcid, hbid, hbx, hby, hbw, hcy, hcw, hox, hidne,
        ho1, ho2, ho3, ho4, hiff, hnewx, hnex⟩ := bumpStep_eq_some hstep
      obtain ⟨hrid, hry, hrw, hrx⟩ := hreg conn (List.mem_cons_self _ _)
      constructor
      · refine ⟨?_, ?_, ?_, ?_, ?_, hnewx, ?_, ?_, ?_, ?_, ?_, ?_, ?_⟩
        · rw [hcid]
          exact hrid
        · rw [hcid, hbid]
          exact hidne
        · rw [hcy, hcid, hry]
        · rw [hcw, hcid, hrw]
        · rw [hox, hcid, hrx]
        · rw [hox]
          exact hnex
        · rw [hbx, hbw, hox, hcw]
          exact hiff
        · rw [hbx, hox, hcw]
          exact ho1
        · rw [hox, hbx, hbw]
          exact ho2
        · rw [hby, hcy]
          exact ho3
        · rw [hcy, hby]
          exact ho4
        · rcases hb with hcand | ⟨h1, h2, h3, h4, e2, he2, he2c⟩
          · exact Or.inl ⟨bumper, hcand, hbid, hbx, hby, hbw⟩
          · refine Or.inr ⟨by rw [hbid]; exact h1, ?_, ?_, ?_, e2, he2, ?_⟩
            · rw [hby, hbid, h2]
            · rw [hbw, hbid, h3]
            · rw [hbx, hbid, h4]
            · rw [he2c, hbid]
      · apply ih (past ++ [e])
        · intro c hc
          obtain ⟨h1, h2, h3, h4⟩ := hreg c (List.mem_cons_of_mem _ hc)
          refine ⟨h1, h2, h3, ?_⟩
          rw [xAfter_append_single, if_neg, h4]
          rw [hcid]
          intro hcontra
          rw [hcontra] at hnotmem
          exact hnotmem (by
            rw [idsOf]
            exact List.mem_map_of_mem _ hc)
        · exact hndtail
        · rcases hb with hcand | ⟨h1, h2, h3, h4, e2, he2, he2c⟩
          · exact Or.inl hcand
          · refine Or.inr ⟨h1, h2, h3, ?_, e2, List.mem_append_left _ he2, he2c⟩
            rw [xAfter_append_single, if_neg, h4]
            rw [hcid]
            intro hcontra
            exact hidne (by rw [hcontra])

theorem shiftX_registered {init : List PhysicsItem}
    (hnd : (idsOf init).Nodup) {past : List BumpEvent} :
    ∀ conn ∈ shiftX init past, Registered init past conn := by
  intro conn hconn
  obtain ⟨it, hit, rfl⟩ := List.mem_map.mp hconn
  refine ⟨?_, ?_, ?_, rfl⟩
  · show it.id ∈ idsOf init
    exact List.mem_map_of_mem _ hit
  · show it.y = yOf init it.id
    exact (yOf_of_mem hnd hit).symm
  · show it.widthUnits = wOf init it.id
    exact (wOf_of_mem hnd hit).symm

theorem pass_shiftX {init : List PhysicsItem} (hnd : (idsOf init).Nodup)
    {cs : Int} {bumper : PhysicsItem} {past : List BumpEvent} :
    passItems cs bumper (shiftX init past)
      = shiftX init (past ++ passEvents cs bumper (shiftX init past)) := by
  rw [passItems]
  conv_lhs => rw [shiftX, List.map_map]
  conv_rhs => rw [shiftX]
  apply List.map_congr_left
  intro it hmem
  simp only [Function.comp]
  have hconnmem : ({ it with x := xAfter init past it.id } : PhysicsItem)
      ∈ shiftX init past := by
    rw [shiftX]
    exact List.mem_map_of_mem _ hmem
  cases hstep : bumpStep cs bumper { it with x := xAfter init past it.id } with
  | some e =>
    have hemem : e ∈ passEvents cs bumper (shiftX init past) :=
      List.mem_filterMap.mpr ⟨_, hconnmem, hstep⟩
    have hecid : e.connId = it.id := (bumpStep_eq_some hstep).1
    have huniq : ∀ e2 ∈ passEvents cs bumper (shiftX init past),
        (e2.connId == it.id) = true → e2 = e := by
      intro e2 he2 hc2
      obtain ⟨conn2, hconn2, hstep2⟩ := List.mem_filterMap.mp he2
      obtain ⟨it2, hit2, rfl⟩ := List.mem_map.mp hconn2
      have hid2 : it2.id = it.id := by
        have hcid2 := (bumpStep_eq_some hstep2).1
        simp only [hcid2] at hc2
        simpa using hc2
      have heq : it2 = it := mem_unique_by_id hnd hit2 hmem hid2
      subst heq
      rw [hstep] at hstep2
      injection hstep2 with h2
      exact h2.symm
    have hlast : lastEventFor (passEvents cs bumper (shiftX init past)) it.id
        = some e := by
      apply find?_unique (List.mem_reverse.mpr hemem) (by simp [hecid])
      intro b hb hpb
      exact huniq b (List.mem_reverse.mp hb) hpb
    rw [xAfter_append, hlast]
  | none =>
    have hnone : lastEventFor (passEvents cs bumper (shiftX init past)) it.id
        = none := by
      apply List.find?_eq_none.mpr
      intro e2 he2 hc2
      obtain ⟨conn2, hconn2, hstep2⟩ :=
        List.mem_filterMap.mp (List.mem_reverse.mp he2)
      obtain ⟨it2, hit2, rfl⟩ := List.mem_map.mp hconn2
      have hid2 : it2.id = it.id := by
        have hcid2 := (bumpStep_eq_some hstep2).1
        simp only [hcid2] at hc2
        simpa using hc2
      have heq : it2 = it := mem_unique_by_id hnd hit2 hmem hid2
      subst heq
      rw [hstep] at hstep2
      exact Option.noConfusion hstep2
    rw [xAfter_append, hnone]

theorem TraceOK_append {cands init : List PhysicsItem} {cs : Int} :
    ∀ {evs1 : List BumpEvent} {past evs2 : List BumpEvent},
      TraceOK cands init cs past evs1 →
      TraceOK cands init cs (past ++ evs1) evs2 →
      TraceOK cands init cs past (evs1 ++ evs2) := by
  intro evs1
  induction evs1 with
  | nil =>
    intro past evs2 _ h2
    simpa using h2
  | cons e rest ih =>
    intro past evs2 h1 h2
    refine ⟨h1.1, ih h1.2 ?_⟩
    have hassoc : past ++ [e] ++ rest = past ++ (e :: rest) := by
      simp
    rw [hassoc]
    exact h2

theorem TraceOK_connId {cands init : List PhysicsItem} {cs : Int} :
    ∀ {evs past : List BumpEvent},
      TraceOK cands init cs past evs →
      ∀ e ∈ evs, e.connId ∈ idsOf init := by
  intro evs
  induction evs with
  | nil =>
    intro past _ e he
    cases he
  | cons e0 rest ih =>
    intro past h e he
    rcases List.mem_cons.mp he with rfl | hmem
    · exact h.1.1
    · exact ih h.2 e hmem

theorem TraceOK_extract {cands init : List PhysicsItem} {cs : Int} :
    ∀ {evs : List BumpEvent} {past : List BumpEvent} {k : Nat} {e : BumpEvent},
      TraceOK cands init cs past evs →
      evs[k]? = some e →
      EventOK cands init cs (past ++ evs.take k) e := by
  intro evs
  induction evs with
  | nil =>
    intro past k e _ hk
    rw [List.getElem?_nil] at hk
    exact Option.noConfusion hk
  | cons e0 rest ih =>
    intro past k e h hk
    cases k with
    | zero =>
      rw [List.getElem?_cons_zero] at hk
      injection hk with he
      subst he
      simpa using h.1
    | succ k =>
      rw [List.getElem?_cons_succ] at hk
      have := ih h.2 hk
      have hassoc : past ++ [e0] ++ rest.take k
          = past ++ (e0 :: rest).take (k + 1) := by
        simp
      rwa [hassoc] at this

theorem idsOf_mapSet {m : List PhysicsItem} {it : PhysicsItem} :
    idsOf (mapSet m it) =
      if m.any (fun e => e.id == it.id) then idsOf m
      else idsOf m ++ [it.id] := by
  rw [mapSet]
  split
  next hc =>
    rw [idsOf, idsOf]
    rw [List.map_map]
    apply List.map_congr_left
    intro e _
    simp only [Function.comp]
    split
    next he => exact (by simpa using he : e.id = it.id).symm
    next he => rfl
  next hc =>
    rw [idsOf, idsOf, List.map_append]
    rfl

theorem mapSet_nodup {m : List PhysicsItem} {it : PhysicsItem}
    (hnd : (idsOf m).Nodup) : (idsOf (mapSet m it)).Nodup := by
  rw [idsOf_mapSet]
  split
  next hc => exact hnd
  next hc =>
    rw [List.nodup_append]
    refine ⟨hnd, List.nodup_singleton _, ?_⟩
    intro a ha hb
    rw [List.mem_singleton] at hb
    subst hb
    obtain ⟨e, he, heid⟩ := List.mem_map.mp ha
    exact hc (List.any_eq_true.mpr ⟨e, he, by simpa using heid⟩)

theorem foldl_mapSet_nodup {l : List PhysicsItem} :
    ∀ {m : List PhysicsItem}, (idsOf m).Nodup →
      (idsOf (l.foldl mapSet m)).Nodup := by
  induction l with
  | nil => intro m h; exact h
  | cons c rest ih =>
    intro m h
    exact ih (mapSet_nodup h)

theorem buildMap_nodup {candidates allItems : List PhysicsItem} :
    (idsOf (buildMap candidates allItems)).Nodup := by
  rw [buildMap]
  exact foldl_mapSet_nodup (foldl_mapSet_nodup (by simp [idsOf]))

theorem mem_mapSet {m : List PhysicsItem} {it a : PhysicsItem}
    (ha : a ∈ mapSet m it) : a ∈ m ∨ a = it := by
  rw [mapSet] at ha
  split at ha
  · obtain ⟨e, he, hea⟩ := List.mem_map.mp ha
    by_cases hc : (e.id == it.id) = true
    · rw [if_pos hc] at hea
      exact Or.inr hea.symm
    · rw [if_neg hc] at hea
      exact Or.inl (hea ▸ he)
  · rcases List.mem_append.mp ha with h | h
    · exact Or.inl h
    · exact Or.inr (List.mem_singleton.mp h)

theorem mem_foldl_mapSet {l : List PhysicsItem} :
    ∀ {m0 : List PhysicsItem} {a0 : PhysicsItem},
      a0 ∈ l.foldl mapSet m0 → a0 ∈ m0 ∨ a0 ∈ l := by
  induction l with
  | nil =>
    intro m0 a0 h
    exact Or.inl h
  | cons c rest ih =>
    intro m0 a0 h
    rcases ih h with h2 | h2
    · rcases mem_mapSet h2 with h3 | h3
      · exact Or.inl h3
      · exact Or.inr (h3 ▸ List.mem_cons_self _ _)
    · exact Or.inr (List.mem_cons_of_mem _ h2)

theorem bumpGo_spec {cands init : List PhysicsItem} {cs : Int}
    (hnd : (idsOf init).Nodup) :
    ∀ (fuel : Nat) (q : List QEntry) (past : List BumpEvent),
      QueueOK cands init past q →
      (bumpGo cs fuel q (shiftX init past)).1
        = shiftX init (past ++ (bumpGo cs fuel q (shiftX init past)).2)
      ∧ TraceOK cands init cs past (bumpGo cs fuel q (shiftX init past)).2 := by
  intro fuel
  induction fuel with
  | zero =>
    intro q past _
    refine ⟨by simp [bumpGo], ?_⟩
    show TraceOK cands init cs past []
    trivial
  | succ fuel ih =>
    intro q past hqok
    cases q with
    | nil =>
      refine ⟨by simp [bumpGo], ?_⟩
      show TraceOK cands init cs past []
      trivial
    | cons entry qs =>
      have hqs : QueueOK cands init past qs :=
        fun x hx => hqok x (List.mem_cons_of_mem _ hx)
      have hndm : (idsOf (shiftX init past)).Nodup := by
        rw [idsOf_shiftX]
        exact hnd
      have main : ∀ bumper : PhysicsItem,
          BumperOK cands init past bumper →
          (bumpGo cs fuel
              (qs ++ (passEvents cs bumper (shiftX init past)).map
                (fun e => QEntry.live e.connId))
              (passItems cs bumper (shiftX init past))).1
            = shiftX init (past ++
              (passEvents cs bumper (shiftX init past)
                ++ (bumpGo cs fuel
                  (qs ++ (passEvents cs bumper (shiftX init past)).map
                    (fun e => QEntry.live e.connId))
                  (passItems cs bumper (shiftX init past))).2))
          ∧ TraceOK cands init cs past
            (passEvents cs bumper (shiftX init past)
              ++ (bumpGo cs fuel
                (qs ++ (passEvents cs bumper (shiftX init past)).map
                  (fun e => QEntry.live e.connId))
                (passItems cs bumper (shiftX init past))).2) := by
        intro bumper hb
        have htr : TraceOK cands init cs past
            (passEvents cs bumper (shiftX init past)) :=
          pass_TraceOK _ past (shiftX_registered hnd) hndm hb
        have hm' := @pass_shiftX init hnd cs bumper past
        have hqok2 : QueueOK cands init
            (past ++ passEvents cs bumper (shiftX init past))
            (qs ++ (passEvents cs bumper (shiftX init past)).map
              (fun e => QEntry.live e.connId)) := by
          intro x hx
          rcases List.mem_append.mp hx with hx | hx
          · have := hqs x hx
            cases x with
            | snap s => exact this
            | live i =>
              obtain ⟨h1, e2, he2, he2c⟩ := this
              exact ⟨h1, e2, List.mem_append_left _ he2, he2c⟩
          · obtain ⟨e, he, rfl⟩ := List.mem_map.mp hx
            exact ⟨TraceOK_connId htr e he, e, List.mem_append_right _ he, rfl⟩
        obtain ⟨ih1, ih2⟩ := ih
          (qs ++ (passEvents cs bumper (shiftX init past)).map
            (fun e => QEntry.live e.connId))
          (past ++ passEvents cs bumper (shiftX init past)) hqok2
        rw [hm']
        refine ⟨?_, TraceOK_append htr ih2⟩
        rw [ih1, List.append_assoc]
      cases entry with
      | snap s =>
        have hs : s ∈ cands := hqok (QEntry.snap s) (List.mem_cons_self _ _)
        have := main s (Or.inl hs)
        simpa only [bumpGo] using this
      | live i =>
        obtain ⟨hi, e0, he0, he0c⟩ :=
          hqok (QEntry.live i) (List.mem_cons_self _ _)
        obtain ⟨it, hit, hitid⟩ := List.mem_map.mp hi
        have hfind : (shiftX init past).find? (fun x => x.id == i)
            = some { it with x := xAfter init past it.id } := by
          rw [shiftX, find?_map_id
            (f := fun it => { it with x := xAfter init past it.id })
            (fun _ => rfl)]
          rw [← hitid, find?_id_of_mem hnd hit]
          rfl
        have hbOK : BumperOK cands init past
            { it with x := xAfter init past it.id } := by
          refine Or.inr ⟨?_, ?_, ?_, rfl, e0, he0, ?_⟩
          · show it.id ∈ idsOf init
            exact List.mem_map_of_mem _ hit
          · show it.y = yOf init it.id
            exact (yOf_of_mem hnd hit).symm
          · show it.widthUnits = wOf init it.id
            exact (wOf_of_mem hnd hit).symm
          · rw [he0c, ← hitid]
        have := main _ hbOK
        simp only [bumpGo, hfind]
        exact this

theorem mem_of_getElem?_some {α : Type} {l : List α} {a : α} {n : Nat}
    (h : l[n]? = some a) : a ∈ l := by
  obtain ⟨hn, rfl⟩ := List.getElem?_eq_some.mp h
  exact List.getElem_mem _

theorem mem_mapSet_self {m : List PhysicsItem} {it : PhysicsItem} :
    it ∈ mapSet m it := by
  rw [mapSet]
  split
  next hc =>
    obtain ⟨e, he, hec⟩ := List.any_eq_true.mp hc
    exact List.mem_map.mpr ⟨e, he, by rw [if_pos hec]⟩
  next hc =>
    exact List.mem_append_right _ (List.mem_singleton.mpr rfl)

theorem mem_mapSet_of_ne {m : List PhysicsItem} {it a : PhysicsItem}
    (ha : a ∈ m) (hne : a.id ≠ it.id) : a ∈ mapSet m it := by
  rw [mapSet]
  split
  next hc =>
    exact List.mem_map.mpr ⟨a, ha, by rw [if_neg (by simpa using hne)]⟩
  next hc =>
    exact List.mem_append_left _ ha

theorem foldl_mapSet_preserved {l : List PhysicsItem} :
    ∀ {m0 : List PhysicsItem} {a : PhysicsItem},
      a ∈ m0 → a.id ∉ idsOf l → a ∈ l.foldl mapSet m0 := by
  induction l with
  | nil =>
    intro m0 a ha _
    exact ha
  | cons it rest ih =>
    intro m0 a ha hnot
    rw [idsOf, List.map_cons, List.mem_cons] at hnot
    push_neg at hnot
    exact ih (mem_mapSet_of_ne ha hnot.1) (by rw [idsOf]; exact hnot.2)

theorem cand_mem_buildMap {cands world : List PhysicsItem}
    (hndc : (idsOf cands).Nodup) {s : PhysicsItem} (hs : s ∈ cands) :
    s ∈ buildMap cands world := by
  rw [buildMap]
  have key : ∀ (l : List PhysicsItem), (idsOf l).Nodup →
      ∀ {a : PhysicsItem}, a ∈ l → ∀ (m0 : List PhysicsItem),
        a ∈ l.foldl mapSet m0 := by
    intro l
    induction l with
    | nil =>
      intro _ a ha
      cases ha
    | cons c rest ih =>
      intro hnd2 a ha m0
      rw [idsOf, List.map_cons, List.nodup_cons] at hnd2
      rw [List.foldl_cons]
      rcases List.mem_cons.mp ha with rfl | hmem
      · exact foldl_mapSet_preserved mem_mapSet_self
          (by rw [idsOf]; exact hnd2.1)
      · exact ih (by rw [idsOf]; exact hnd2.2) hmem (mapSet m0 c)
  exact key cands hndc hs _

theorem buildMap_find_cand {cands world : List PhysicsItem}
    (hndc : (idsOf cands).Nodup) {s : PhysicsItem} (hs : s ∈ cands) :
    (buildMap cands world).find? (fun x => x.id == s.id) = some s :=
  find?_id_of_mem buildMap_nodup (cand_mem_buildMap hndc hs)

theorem buildMap_provenance {cands world : List PhysicsItem}
    {a : PhysicsItem} (ha : a ∈ buildMap cands world) :
    a ∈ cands ∨ a ∈ world := by
  rw [buildMap] at ha
  rcases mem_foldl_mapSet ha with h | h
  · rcases mem_foldl_mapSet h with h2 | h2
    · cases h2
    · exact Or.inr (List.mem_filter.mp h2).1
  · exact Or.inl h

theorem resolveBumpsTrace_spec (cands world : List PhysicsItem) (cs : Int) :
    (resolveBumpsTrace cands world cs).1
      = shiftX (buildMap cands world) (resolveBumpsTrace cands world cs).2
    ∧ TraceOK cands (buildMap cands world) cs []
      (resolveBumpsTrace cands world cs).2 := by
  have hnd : (idsOf (buildMap cands world)).Nodup := buildMap_nodup
  have hq : QueueOK cands (buildMap cands world) [] (cands.map QEntry.snap) := by
    intro entry hentry
    obtain ⟨s, hsmem, rfl⟩ := List.mem_map.mp hentry
    exact hsmem
  have hmain := @bumpGo_spec cands (buildMap cands world) cs hnd 1000
    (cands.map QEntry.snap) [] hq
  rw [shiftX_nil hnd] at hmain
  rw [resolveBumpsTrace]
  refine ⟨?_, hmain.2⟩
  rw [hmain.1]
  simp

/-- C8: every item returned by resolveBumps keeps the y (and id and width)
of its input version, which is a candidate or a world item; and an item
whose x changed vertically overlaps (AABB row overlap over the cellSize
high boxes) a candidate or an item that was displaced during the run of
the propagation. -/
theorem c8_resolveBumps (cands world : List PhysicsItem) (cs : Int) :
    (∀ i ∈ resolveBumps cands world cs,
      (∃ c ∈ cands, c.id = i.id ∧ c.y = i.y ∧ c.widthUnits = i.widthUnits)
      ∨ (∃ w2 ∈ world, w2.id = i.id ∧ w2.y = i.y
          ∧ w2.widthUnits = i.widthUnits))
    ∧ (∀ (k : Nat) (it it2 : PhysicsItem),
        (buildMap cands world)[k]? = some it →
        (resolveBumps cands world cs)[k]? = some it2 →
        it2.id = it.id ∧ it2.y = it.y ∧ it2.widthUnits = it.widthUnits
        ∧ (it2.x ≠ it.x →
          ∃ j : PhysicsItem,
            (j ∈ cands
              ∨ (j ∈ buildMap cands world
                ∧ ∃ e ∈ (resolveBumpsTrace cands world cs).2,
                  e.connId = j.id))
            ∧ it.y < j.y + cs ∧ j.y < it.y + cs)) := by
  obtain ⟨hcoh, htr⟩ := resolveBumpsTrace_spec cands world cs
  have hnd : (idsOf (buildMap cands world)).Nodup := buildMap_nodup
  constructor
  · intro i hi
    rw [resolveBumps, hcoh] at hi
    obtain ⟨it0, hit0, rfl⟩ := List.mem_map.mp hi
    rcases buildMap_provenance hit0 with h | h
    · exact Or.inl ⟨it0, h, rfl, rfl, rfl⟩
    · exact Or.inr ⟨it0, h, rfl, rfl, rfl⟩
  · intro k it it2 hk hk2
    rw [resolveBumps, hcoh, shiftX, List.getElem?_map, hk] at hk2
    rw [Option.map_some'] at hk2
    injection hk2 with hit2
    subst hit2
    refine ⟨rfl, rfl, rfl, ?_⟩
    intro hx
    have hmem_it : it ∈ buildMap cands world := mem_of_getElem?_some hk
    cases hle : lastEventFor (resolveBumpsTrace cands world cs).2 it.id with
    | none =>
      exfalso
      apply hx
      show xAfter (buildMap cands world)
        (resolveBumpsTrace cands world cs).2 it.id = it.x
      rw [xAfter, hle, xOf_of_mem hnd hmem_it]
    | some e =>
      have hemem : e ∈ (resolveBumpsTrace cands world cs).2 :=
        List.mem_reverse.mp (List.mem_of_find?_eq_some hle)
      have hecid : e.connId = it.id := by
        have := List.find?_some hle
        simpa using this
      obtain ⟨k2, hk2e⟩ := List.getElem?_of_mem hemem
      have hEOK := TraceOK_extract htr hk2e
      rw [List.nil_append] at hEOK
      obtain ⟨hc1, hc2, hcy, hcw, hox, hnx, hne, hiff,
        ho1, ho2, ho3, ho4, hsrc⟩ := hEOK
      have hconny : e.connY = it.y := by
        rw [hcy, hecid, yOf_of_mem hnd hmem_it]
      rcases hsrc with ⟨s, hsmem, hsid, hsx, hsy, hsw⟩ |
          ⟨hbm, hby, hbw, hbx, e2, he2, he2c⟩
      · refine ⟨s, Or.inl hsmem, ?_, ?_⟩
        · rw [← hconny, ← hsy]
          exact ho4
        · rw [← hconny, ← hsy]
          exact ho3
      · obtain ⟨itb, hitb, hitbid⟩ := List.mem_map.mp hbm
        refine ⟨itb, Or.inr ⟨hitb, e2, ?_, by rw [he2c, hitbid]⟩, ?_, ?_⟩
        · exact List.take_subset _ _ he2
        · have : e.bumperY = itb.y := by
            rw [hby, ← hitbid, yOf_of_mem hnd hitb]
          rw [← hconny, ← this]
          exact ho4
        · have : e.bumperY = itb.y := by
            rw [hby, ← hitbid, yOf_of_mem hnd hitb]
          rw [← hconny, ← this]
          exact ho3

theorem shiftX_eq_map {init : List PhysicsItem} {evs : List BumpEvent} :
    shiftX init evs = init.map (shiftFun init evs) := rfl

/-- C2 (amended): after resolution, an item whose last displacement was by
a bumper that is itself never displaced during the run, and whose computed
position was not clamped at zero, ends with its edge exactly touching that
bumper: pushed right, its left edge equals the bumper right edge; pushed
left, its right edge equals the bumper left edge.  (In general a later
displacement of the displacing item, or the clamp at x=0, can leave the
pair separated or overlapping.)  Candidate ids are assumed pairwise
distinct, as the engine requires of its inputs. -/
theorem c2_amended (cands world : List PhysicsItem) (cs : Int)
    (hndc : (idsOf cands).Nodup)
    (i : Nat) (e : BumpEvent)
    (hlast : lastEventFor (resolveBumpsTrace cands world cs).2 i = some e)
    (hnb : ∀ e2 ∈ (resolveBumpsTrace cands world cs).2,
      e2.connId ≠ e.bumperId)
    (hraw : 0 ≤ rawOf cs e)
    (ci bi : PhysicsItem)
    (hci : (resolveBumps cands world cs).find? (fun x => x.id == i)
      = some ci)
    (hbi : (resolveBumps cands world cs).find?
      (fun x => x.id == e.bumperId) = some bi) :
    (e.pushedRight = true → ci.x = bi.x + bi.widthUnits * cs)
    ∧ (e.pushedRight = false → ci.x + ci.widthUnits * cs = bi.x) := by
  obtain ⟨hcoh, htr⟩ := resolveBumpsTrace_spec cands world cs
  have hnd : (idsOf (buildMap cands world)).Nodup := buildMap_nodup
  have hecid : e.connId = i := by simpa using List.find?_some hlast
  have hemem : e ∈ (resolveBumpsTrace cands world cs).2 :=
    List.mem_reverse.mp (List.mem_of_find?_eq_some hlast)
  obtain ⟨k2, hk2⟩ := List.getElem?_of_mem hemem
  have hEOK := TraceOK_extract htr hk2
  rw [List.nil_append] at hEOK
  obtain ⟨hc1, hc2, hcy, hcw, hox, hnx, hne, hiff,
    ho1, ho2, ho3, ho4, hsrc⟩ := hEOK
  rcases hsrc with ⟨s, hsmem, hsid, hsx, hsy, hsw⟩ |
      ⟨hbm, hby, hbw, hbx, e2, he2, he2c⟩
  · rw [resolveBumps, hcoh, shiftX_eq_map,
      find?_map_id (f := shiftFun (buildMap cands world)
        (resolveBumpsTrace cands world cs).2) (fun _ => rfl)] at hci hbi
    cases hfi : (buildMap cands world).find? (fun x => x.id == i) with
    | none =>
      rw [hfi] at hci
      exact Option.noConfusion hci
    | some itc =>
      rw [hfi, Option.map_some'] at hci
      injection hci with hci2
      cases hfb : (buildMap cands world).find?
          (fun x => x.id == e.bumperId) with
      | none =>
        rw [hfb] at hbi
        exact Option.noConfusion hbi
      | some itb =>
        rw [hfb, Option.map_some'] at hbi
        injection hbi with hbi2
        have hitc_mem : itc ∈ buildMap cands world :=
          List.mem_of_find?_eq_some hfi
        have hitc_id : itc.id = i := by simpa using List.find?_some hfi
        have hsfind : (buildMap cands world).find?
            (fun x => x.id == s.id) = some s :=
          buildMap_find_cand hndc hsmem
        have hitb_eq : itb = s := by
          rw [hsid] at hfb
          rw [hfb] at hsfind
          injection hsfind
        subst hitb_eq
        have hnos : lastEventFor (resolveBumpsTrace cands world cs).2 itb.id
            = none := by
          apply List.find?_eq_none.mpr
          intro e2 he2 hpe2
          apply hnb e2 (List.mem_reverse.mp he2)
          rw [hsid]
          simpa using hpe2
        have hcix : ci.x = e.newX := by
          rw [← hci2]
          show xAfter (buildMap cands world)
            (resolveBumpsTrace cands world cs).2 itc.id = e.newX
          rw [xAfter, hitc_id, hlast]
        have hbix : bi.x = itb.x := by
          rw [← hbi2]
          show xAfter (buildMap cands world)
            (resolveBumpsTrace cands world cs).2 itb.id = itb.x
          rw [xAfter, hnos]
          have : itb ∈ buildMap cands world :=
            List.mem_of_find?_eq_some hsfind
          exact xOf_of_mem hnd this
        have hbiw : bi.widthUnits = itb.widthUnits := by
          rw [← hbi2]
          rfl
        have hciw : ci.widthUnits = itc.widthUnits := by
          rw [← hci2]
          rfl
        have hbx2 : e.bumperX = bi.x := by rw [hbix, hsx]
        have hbw2 : e.bumperW = bi.widthUnits := by rw [hbiw, hsw]
        have hcw2 : e.connW = ci.widthUnits := by
          rw [hciw, hcw, hecid, ← hitc_id, wOf_of_mem hnd hitc_mem]
        have hnoclamp : e.newX = rawOf cs e := by
          rw [hnx, if_neg (by omega)]
        constructor
        · intro hpr
          rw [hcix, hnoclamp, rawOf, if_pos hpr, hbx2, hbw2]
        · intro hpr
          rw [hcix, hnoclamp, rawOf, if_neg (by rw [hpr]; simp),
            hcw2, hbx2]
          ring
  · exfalso
    exact hnb e2 (List.take_subset _ _ he2) he2c

/-- Witness for C2 (amended) at a concrete input: A at 80 pushes B from
100 to 180, and B ends exactly at the right edge of A. -/
theorem c2_amended_witness :
    (⟨2, 180, 0, 2⟩ : PhysicsItem).x
      = (⟨1, 80, 0, 2⟩ : PhysicsItem).x
        + (⟨1, 80, 0, 2⟩ : PhysicsItem).widthUnits * 50 :=
  (c2_amended [⟨1, 80, 0, 2⟩] [⟨2, 100, 0, 2⟩] 50 (by decide) 2
    ⟨2, 1, 80, 0, 2, 0, 2, 100, 180, true⟩ (by decide) (by decide)
    (by decide) ⟨2, 180, 0, 2⟩ ⟨1, 80, 0, 2⟩ (by decide) (by decide)).1 rfl

/-- Witness for C8 at a concrete input: B moved from 100 to 180, and it
row-overlaps a candidate or displaced item. -/
theorem c8_resolveBumps_witness :
    ∃ j : PhysicsItem,
      (j ∈ [(⟨1, 80, 0, 2⟩ : PhysicsItem)]
        ∨ (j ∈ buildMap [⟨1, 80, 0, 2⟩] [⟨2, 100, 0, 2⟩]
          ∧ ∃ e ∈ (resolveBumpsTrace [⟨1, 80, 0, 2⟩] [⟨2, 100, 0, 2⟩] 50).2,
            e.connId = j.id))
      ∧ (⟨2, 100, 0, 2⟩ : PhysicsItem).y < j.y + 50
      ∧ j.y < (⟨2, 100, 0, 2⟩ : PhysicsItem).y + 50 :=
  ((c8_resolveBumps [⟨1, 80, 0, 2⟩] [⟨2, 100, 0, 2⟩] 50).2 0
    ⟨2, 100, 0, 2⟩ ⟨2, 180, 0, 2⟩ (by decide) (by decide)).2.2.2 (by decide)

theorem resolveBackfill_ids (gapX gapY gapWidthUnits : Int)
    (allItems : List PhysicsItem) (cellSize : Int) :
    (resolveBackfill gapX gapY gapWidthUnits allItems cellSize).map
        (fun i => i.id)
      = allItems.map (fun i => i.id) := by
  apply List.ext_getElem?
  intro n
  rw [List.getElem?_map, resolveBackfill_getElem?, List.getElem?_map,
    Option.map_map]
  cases allItems[n]? with
  | none => rfl
  | some it =>
    rw [Option.map_some', Option.map_some']
    simp only [Function.comp]
    split <;> rfl

theorem backfilledWorld_ids (args : List DragArg)
    (allItems : List PhysicsItem) (cs : Int) :
    (backfilledWorld args allItems cs).map (fun i => i.id)
      = (draggedWorld args allItems).map (fun i => i.id) := by
  rw [backfilledWorld]
  generalize stableSort (fun p q => q.1 ≤ p.1)
    (backfillOrigins args allItems cs) = l
  induction l generalizing args with
  | nil => rfl
  | cons o rest ih =>
    rw [List.foldl_cons]
    have key : ∀ (l2 : List (Int × Int × Int)) (w : List PhysicsItem),
        (l2.foldl (fun w o => resolveBackfill o.1 o.2.1 o.2.2 w cs) w).map
          (fun i => i.id) = w.map (fun i => i.id) := by
      intro l2
      induction l2 with
      | nil => intro w; rfl
      | cons o2 rest2 ih2 =>
        intro w
        rw [List.foldl_cons, ih2, resolveBackfill_ids]
    rw [key, resolveBackfill_ids]

theorem resolveDragged_ids (args : List DragArg)
    (allItems : List PhysicsItem) :
    (resolveDragged args allItems).map (fun i => i.id)
      = (args.map (fun a => a.id)).filter
        (fun n => (allItems.map (fun i => i.id)).contains n) := by
  induction args with
  | nil => rfl
  | cons a rest ih =>
    cases hf : allItems.find? (fun i => i.id == a.id) with
    | none =>
      rw [List.find?_eq_none] at hf
      have hna : a.id ∉ allItems.map (fun i => i.id) := by
        intro hmem
        obtain ⟨o, ho, hoid⟩ := List.mem_map.mp hmem
        exact hf o ho (by simp [hoid])
      have hnc : ¬ ((allItems.map (fun i => i.id)).contains a.id) = true := by
        simpa using hna
      have hfa : ((allItems.find? (fun i => i.id == a.id)).map
          (fun original =>
            { original with x := a.targetX, y := a.targetY })) = none := by
        rw [List.find?_eq_none.mpr hf]
        rfl
      have hstep : resolveDragged (a :: rest) allItems
          = resolveDragged rest allItems := List.filterMap_cons_none hfa
      rw [hstep, ih, List.map_cons, List.filter_cons_of_neg hnc]
    | some o =>
      have hoid : o.id = a.id := by simpa using List.find?_some hf
      have hc : a.id ∈ allItems.map (fun i => i.id) := by
        rw [← hoid]
        exact List.mem_map_of_mem _ (List.mem_of_find?_eq_some hf)
      have hfa : ((allItems.find? (fun i => i.id == a.id)).map
          (fun original =>
            { original with x := a.targetX, y := a.targetY }))
          = some { o with x := a.targetX, y := a.targetY } := by
        rw [hf]
        rfl
      have hstep : resolveDragged (a :: rest) allItems
          = { o with x := a.targetX, y := a.targetY }
            :: resolveDragged rest allItems := List.filterMap_cons_some hfa
      rw [hstep]
      simp only [List.map_cons]
      rw [ih, List.filter_cons_of_pos (by simpa using hc), hoid]

theorem foldl_mapSet_fresh :
    ∀ (l m : List PhysicsItem), (∀ a ∈ l, a.id ∉ idsOf m) →
      (idsOf l).Nodup → l.foldl mapSet m = m ++ l := by
  intro l
  induction l with
  | nil =>
    intro m _ _
    simp
  | cons c rest ih =>
    intro m hfresh hndl
    rw [idsOf, List.map_cons, List.nodup_cons] at hndl
    have hset : mapSet m c = m ++ [c] := by
      rw [mapSet, if_neg]
      intro hany
      obtain ⟨e, he, hbeq⟩ := List.any_eq_true.mp hany
      apply hfresh c (List.mem_cons_self _ _)
      rw [idsOf]
      have : e.id = c.id := by simpa using hbeq
      exact this ▸ List.mem_map_of_mem _ he
    rw [List.foldl_cons, hset, ih (m ++ [c])]
    · simp
    · intro a ha
      rw [idsOf, List.map_append, List.mem_append]
      push_neg
      constructor
      · have := hfresh a (List.mem_cons_of_mem _ ha)
        rw [idsOf] at this
        exact this
      · simp only [List.map_cons, List.map_nil, List.mem_singleton]
        intro hcontra
        exact hndl.1 (hcontra ▸ List.mem_map_of_mem _ ha)
    · rw [idsOf]
      exact hndl.2

theorem buildMap_append_of_disjoint {cands world : List PhysicsItem}
    (hndw : (idsOf world).Nodup) (hndc : (idsOf cands).Nodup)
    (hdisj : ∀ c ∈ cands, c.id ∉ idsOf world) :
    buildMap cands world = world ++ cands := by
  simp only [buildMap]
  have hfilter : world.filter
      (fun it => !((cands.map (fun c => c.id)).contains it.id)) = world := by
    rw [List.filter_eq_self]
    intro a ha
    simp only [Bool.not_eq_true']
    rw [Bool.eq_false_iff]
    intro hc
    have : a.id ∈ cands.map (fun c => c.id) := by simpa using hc
    obtain ⟨c, hcm, hcid⟩ := List.mem_map.mp this
    apply hdisj c hcm
    rw [hcid, idsOf]
    exact List.mem_map_of_mem _ ha
  rw [hfilter]
  have hbase : world.foldl mapSet [] = world := by
    rw [foldl_mapSet_fresh world [] (by simp [idsOf]) hndw]
    simp
  rw [hbase]
  exact foldl_mapSet_fresh cands world hdisj hndc

theorem map_id_filter (q : Nat → Bool) (l : List PhysicsItem) :
    (l.filter (fun i => q i.id)).map (fun i => i.id)
      = (l.map (fun i => i.id)).filter q := by
  induction l with
  | nil => rfl
  | cons a rest ih =>
    by_cases hq : q a.id = true
    · simp only [List.filter_cons, List.map_cons, hq, if_true, ih]
    · have hq2 : q a.id = false := by simpa using hq
      simp only [List.filter_cons, List.map_cons, hq2, Bool.false_eq_true,
        if_false, ih]

theorem shiftX_map_id {init : List PhysicsItem} {evs : List BumpEvent} :
    (shiftX init evs).map (fun i => i.id) = init.map (fun i => i.id) :=
  idsOf_shiftX

theorem calculateLayoutOutcome_bump_items
    {args : List DragArg} {allItems : List PhysicsItem} {cs : Int}
    {opts : LayoutOptions}
    (h : resolveDragged args allItems ≠ []) (hbump : opts.isBumpMode = true) :
    (calculateLayoutOutcome args allItems cs opts).items
      = resolveBumps (resolveDragged args allItems)
        (if opts.isBackfillMode then backfilledWorld args allItems cs
         else draggedWorld args allItems) cs := by
  simp only [calculateLayoutOutcome, List.isEmpty_eq_false.mpr h,
    Bool.false_eq_true, if_false, hbump, if_true]

/-- C10: when both the authoritative items and the drag requests carry
pairwise distinct ids, the returned item list holds exactly the ids of the
input, each exactly once, in every mode combination: no item is created,
dropped or duplicated. -/
theorem c10_id_preservation (args : List DragArg)
    (allItems : List PhysicsItem) (cs : Int) (opts : LayoutOptions)
    (hnd : (allItems.map (fun i => i.id)).Nodup)
    (hna : (args.map (fun a => a.id)).Nodup) :
    ((calculateLayoutOutcome args allItems cs opts).items.map
      (fun i => i.id)).Perm (allItems.map (fun i => i.id)) := by
  have hDfilter := resolveDragged_ids args allItems
  have hDnodup : ((resolveDragged args allItems).map
      (fun i => i.id)).Nodup := by
    rw [hDfilter]
    exact hna.filter _
  have hDsub : ∀ n ∈ (resolveDragged args allItems).map (fun i => i.id),
      n ∈ allItems.map (fun i => i.id) := by
    rw [hDfilter]
    intro n hn
    simpa using (List.mem_filter.mp hn).2
  have hwids : (draggedWorld args allItems).map (fun i => i.id)
      = (allItems.map (fun i => i.id)).filter
        (fun n => !(((resolveDragged args allItems).map
          (fun i => i.id)).contains n)) := by
    rw [draggedWorld]
    exact map_id_filter (fun n => !(((resolveDragged args allItems).map
      (fun d => d.id)).contains n)) allItems
  have hperm : ((allItems.map (fun i => i.id)).filter
      (fun n => !(((resolveDragged args allItems).map
        (fun i => i.id)).contains n))
      ++ (resolveDragged args allItems).map (fun i => i.id)).Perm
      (allItems.map (fun i => i.id)) := by
    have h1 := List.filter_append_perm
      (fun n => !(((resolveDragged args allItems).map
        (fun i => i.id)).contains n)) (allItems.map (fun i => i.id))
    have h2 : (allItems.map (fun i => i.id)).filter
        (fun x => !(!(((resolveDragged args allItems).map
          (fun i => i.id)).contains x)))
        = (allItems.map (fun i => i.id)).filter
          (fun x => ((resolveDragged args allItems).map
            (fun i => i.id)).contains x) := by
      apply List.filter_congr
      intro x _
      rw [Bool.not_not]
    rw [h2] at h1
    have h3 : ((allItems.map (fun i => i.id)).filter
        (fun x => ((resolveDragged args allItems).map
          (fun i => i.id)).contains x)).Perm
        ((resolveDragged args allItems).map (fun i => i.id)) := by
      apply List.perm_of_nodup_nodup_toFinset_eq (hnd.filter _) hDnodup
      ext n
      simp only [List.mem_toFinset, List.mem_filter]
      constructor
      · rintro ⟨_, hc⟩
        simpa using hc
      · intro hn
        exact ⟨hDsub n hn, by simpa using hn⟩
    exact (List.Perm.append_left _ h3.symm).trans h1
  by_cases hres : resolveDragged args allItems = []
  · rw [calculateLayoutOutcome_of_unresolved hres]
  · cases hbm : opts.isBumpMode with
    | false =>
      obtain ⟨fd, hitems, hids⟩ := calculateLayoutOutcome_plain_shape hres hbm
      rw [hitems, List.map_append]
      have hwids2 : ((if opts.isBackfillMode then
            backfilledWorld args allItems cs
          else draggedWorld args allItems)).map (fun i => i.id)
          = (draggedWorld args allItems).map (fun i => i.id) := by
        split
        · exact backfilledWorld_ids args allItems cs
        · rfl
      rw [hwids2, hwids, hids]
      exact hperm
    | true =>
      rw [calculateLayoutOutcome_bump_items hres hbm]
      have hwids2 : ((if opts.isBackfillMode then
            backfilledWorld args allItems cs
          else draggedWorld args allItems)).map (fun i => i.id)
          = (draggedWorld args allItems).map (fun i => i.id) := by
        split
        · exact backfilledWorld_ids args allItems cs
        · rfl
      have hcoh := (resolveBumpsTrace_spec (resolveDragged args allItems)
        (if opts.isBackfillMode then backfilledWorld args allItems cs
         else draggedWorld args allItems) cs).1
      rw [resolveBumps, hcoh, shiftX_map_id]
      have hbuild : buildMap (resolveDragged args allItems)
          (if opts.isBackfillMode then backfilledWorld args allItems cs
           else draggedWorld args allItems)
          = (if opts.isBackfillMode then backfilledWorld args allItems cs
             else draggedWorld args allItems)
            ++ resolveDragged args allItems := by
        apply buildMap_append_of_disjoint
        · show ((if opts.isBackfillMode then
              backfilledWorld args allItems cs
            else draggedWorld args allItems).map (fun i => i.id)).Nodup
          rw [hwids2, hwids]
          exact hnd.filter _
        · exact hDnodup
        · intro c hc
          show c.id ∉ (if opts.isBackfillMode then
              backfilledWorld args allItems cs
            else draggedWorld args allItems).map (fun i => i.id)
          rw [hwids2, hwids]
          intro hmem
          have := (List.mem_filter.mp hmem).2
          simp only [Bool.not_eq_true'] at this
          rw [Bool.eq_false_iff] at this
          apply this
          simpa using List.mem_map_of_mem (fun i => i.id) hc
      rw [hbuild, List.map_append, hwids2, hwids]
      exact hperm

/-- Witness for C10 at a concrete input: the end-to-end scenario returns a
permutation of the input ids. -/
theorem c10_id_preservation_witness :
    ((calculateLayoutOutcome [⟨2, 0, 0⟩]
      [⟨1, 0, 0, 2⟩, ⟨2, 100, 0, 2⟩, ⟨3, 200, 0, 2⟩] 50
      ⟨true, true, 1000, 1000⟩).items.map (fun i => i.id)).Perm
      ([(⟨1, 0, 0, 2⟩ : PhysicsItem), ⟨2, 100, 0, 2⟩, ⟨3, 200, 0, 2⟩].map
        (fun i => i.id)) :=
  c10_id_preservation [⟨2, 0, 0⟩]
    [⟨1, 0, 0, 2⟩, ⟨2, 100, 0, 2⟩, ⟨3, 200, 0, 2⟩] 50
    ⟨true, true, 1000, 1000⟩ (by decide) (by decide)
